import Mathlib

/-!
Verification of the reply-correlation and resilient-extraction engines of the
email bot (sources: `src/imap_client_живой резерв.py`, `src/imap_client.py`,
`src/lm_studio_client.py`, `src/excel_processor.py`, `src/utils.py`).

Strings are shallowly embedded as lists of Unicode code points (`List Nat`),
which models Python `str` faithfully for every operation the code performs
(indexing, slicing, case folding on the Latin/Cyrillic ranges actually used,
whitespace stripping on the ASCII whitespace the inputs contain).  Timestamps
are embedded as `Int` seconds; header-date parsing (an external library call)
is modelled by storing the already-parsed `Option Int` on each message, `none`
standing for a missing or unparseable `Date` header exactly as
`parsedate_to_datetime` failure does in the code.  The IMAP server is external
I/O: a folder's `msgs` field models the concatenated fetch results of the
per-criteria server-side searches run in that folder.
-/

/-- Python strings as lists of code points. -/
abbrev Str := List Nat

/-- Code points of a Lean string literal, used to write concrete test data. -/
def str (s : String) : Str := s.data.map Char.toNat

/-- Python `str.lower` on the code-point ranges the program manipulates
(ASCII letters and the Russian Cyrillic block used by the folder patterns,
subject markers and keyword anchors). -/
def lowChar (n : Nat) : Nat :=
  if 65 ≤ n ∧ n ≤ 90 then n + 32
  else if 1040 ≤ n ∧ n ≤ 1071 then n + 32
  else if n = 1025 then 1105
  else n

/-- Python `str.lower` over a whole string. -/
def lowerS (s : Str) : Str := s.map lowChar

/-- ASCII whitespace, modelling Python `str.strip()` / regex `\s` on the
character set occurring in the data. -/
def isWs (n : Nat) : Bool :=
  n = 32 || n = 9 || n = 10 || n = 13 || n = 11 || n = 12

/-- ASCII decimal digit, modelling regex `\d`. -/
def isDigitC (n : Nat) : Bool := 48 ≤ n && n ≤ 57

/-- Python `str.rstrip()`. -/
def rstripWs (s : Str) : Str := (s.reverse.dropWhile isWs).reverse

/-- Python `str.strip()`. -/
def stripWsB (s : Str) : Str := rstripWs (s.dropWhile isWs)

/-- Python `str.strip('<>')` as used on message ids. -/
def isAngle (n : Nat) : Bool := n = 60 || n = 62

/-- Strip leading and trailing angle brackets: `s.strip('<>')`. -/
def stripAngles (s : Str) : Str :=
  ((s.dropWhile isAngle).reverse.dropWhile isAngle).reverse

/-- `a` is a prefix of `b` (code-point equality). -/
def isPref : Str → Str → Bool
  | [], _ => true
  | _ :: _, [] => false
  | a :: as, b :: bs => a == b && isPref as bs

/-- Python `needle in hay` substring test (empty needle always matches). -/
def isSub : Str → Str → Bool
  | n, [] => isPref n []
  | n, c :: t => isPref n (c :: t) || isSub n t

/-- Python `str.split()`: split on whitespace runs, dropping empty pieces. -/
def splitWsAux : Str → Str → List Str → List Str
  | [], cur, acc => if cur = [] then acc else cur.reverse :: acc
  | c :: t, cur, acc =>
      if isWs c then splitWsAux t [] (if cur = [] then acc else cur.reverse :: acc)
      else splitWsAux t (c :: cur) acc

/-- Python `str.split()`. -/
def splitWs (s : Str) : List Str := (splitWsAux s [] []).reverse

/-!  ## Reply-correlation engine (`src/imap_client_живой резерв.py`)  -/

/-- A fetched inbound message, post `_decode_header` (modelled as identity on
the already-decoded values) and post date parsing (`date = none` when the
`Date` header is absent or `parsedate_to_datetime` raised). -/
structure Msg where
  inReplyTo : Str
  references : Str
  fromAddr : Str
  subject : Str
  date : Option Int
  messageId : Str
  body : Str
deriving DecidableEq

/-- The dictionary built by `_fetch_and_validate_reply` for an accepted
candidate (the raw date string is subsumed by `replyDate`). -/
structure ReplyCand where
  messageId : Str
  fromAddr : Str
  subject : Str
  body : Str
  confidence : Nat
  replyDate : Option Int
  inReplyTo : Str
  references : Str
deriving DecidableEq

/-- One IMAP folder as the engine sees it: the raw listing name, the UTF-7
decoded name, and the messages the per-criteria searches return in it. -/
structure Folder where
  raw : Str
  decoded : Str
  msgs : List Msg
deriving DecidableEq

/-- The per-search context `find_reply` derives from the sent record before
scanning folders: bare message id, lowercased recipient, subject, sent time. -/
structure Ctx where
  smid : Str
  sto : Str
  ssub : Str
  sentAt : Int
deriving DecidableEq

/-- A sent-mail record as produced by `get_sent_emails` (`messageId = []`
models a missing or empty `Message-ID`, which Python treats as falsy). -/
structure SentMail where
  toAddr : Str
  subject : Str
  date : Option Int
  messageId : Str
deriving DecidableEq

/-- `re.sub(r'^(Re:|RE:|re:|Fwd:|FWD:|fwd:)\s*', '', x)`: remove one leading
reply/forward marker (these exact case variants only) plus following
whitespace. -/
def removeReFwd (s : Str) : Str :=
  if isPref (str ("Re:")) s ∨ isPref (str ("RE:")) s ∨ isPref (str ("re:")) s then
    (s.drop 3).dropWhile isWs
  else if isPref (str ("Fwd:")) s ∨ isPref (str ("FWD:")) s ∨ isPref (str ("fwd:")) s then
    (s.drop 4).dropWhile isWs
  else s

/-- Number of distinct words of `rw` that occur in `ow` (Python set
intersection size). -/
def interCount (rw ow : List Str) : Nat :=
  ((rw.dedup).filter (fun w => decide (w ∈ ow))).length

/-- `_subjects_match`: exact match after stripping one reply/forward marker,
else ≥ 70 % of the original subject's distinct words occur in the reply
subject.  The Python float comparison `len ∩ / len ≥ 0.7` is modelled by the
exact rational inequality `10·|∩| ≥ 7·|orig|`. -/
def subjectsMatch (replySubject originalSubject : Str) : Bool :=
  if replySubject = [] ∨ originalSubject = [] then false
  else
    let cr := stripWsB (removeReFwd replySubject)
    let co := stripWsB (removeReFwd originalSubject)
    if lowerS cr = lowerS co then true
    else
      let rw := splitWs (lowerS cr)
      let ow := (splitWs (lowerS co)).dedup
      if 0 < ow.length then decide (7 * ow.length ≤ 10 * interCount rw ow)
      else false

/-- The five confidence deltas of `_fetch_and_validate_reply` written as a sum
of independent indicators (the spec's "fold over independent signal checks"). -/
def confSum (exact refM fromM reM subjM : Bool) : Nat :=
  (if exact then 50 else 0) + (if refM then 40 else 0) + (if fromM then 30 else 0)
    + (if reM then 20 else 0) + (if subjM then 15 else 0)

/-- The sequential `confidence += …` accumulation exactly as the code runs it. -/
def chainConf (exact refM fromM reM subjM : Bool) : Nat :=
  let c1 : Nat := if exact then 0 + 50 else 0
  let c2 := if refM then c1 + 40 else c1
  let c3 := if fromM then c2 + 30 else c2
  let c4 := if reM then c3 + 20 else c3
  if subjM then c4 + 15 else c4

/-- Signal 1: the candidate's bare in-reply-to equals the sent bare id. -/
def sigExact (ctx : Ctx) (m : Msg) : Bool :=
  decide (stripAngles m.inReplyTo = ctx.smid)

/-- Signal 2: the sent id occurs in the candidate's references header. -/
def sigRef (ctx : Ctx) (m : Msg) : Bool := isSub ctx.smid m.references

/-- Signal 3: the lowercased from-address contains the lowercased recipient. -/
def sigFrom (ctx : Ctx) (m : Msg) : Bool := isSub ctx.sto (lowerS m.fromAddr)

/-- Signal 4: the lowercased subject starts with a reply marker. -/
def sigRe (m : Msg) : Bool :=
  isPref (str ("re:")) (lowerS m.subject) || isPref (str ("ре:")) (lowerS m.subject)

/-- Signal 5: subject similarity. -/
def sigSubj (ctx : Ctx) (m : Msg) : Bool := subjectsMatch m.subject ctx.ssub

/-- Temporal gate (`if reply_date and reply_date <= sent_datetime: return None`):
a parsed date must be strictly after the sent time; a missing date passes. -/
def dateOkB (ctx : Ctx) (m : Msg) : Bool :=
  match m.date with
  | some d => decide (ctx.sentAt < d)
  | none => true

/-- The acceptance body of `_fetch_and_validate_reply` after the date gate. -/
def fetchAndValidateBody (ctx : Ctx) (m : Msg) : Option ReplyCand :=
  let exact := sigExact ctx m
  let refM := sigRef ctx m
  let conf := chainConf exact refM (sigFrom ctx m) (sigRe m) (sigSubj ctx m)
  if exact || refM || decide (40 ≤ conf) then
    some { messageId := m.messageId, fromAddr := lowerS m.fromAddr,
           subject := m.subject, body := m.body, confidence := conf,
           replyDate := m.date, inReplyTo := stripAngles m.inReplyTo,
           references := m.references }
  else none

/-- `_fetch_and_validate_reply`: discard candidates whose parsed date is not
strictly after the sent time (candidates with an unparseable date pass the
gate, as `if reply_date and reply_date <= sent_datetime` does), accumulate the
five signal deltas, and accept iff the in-reply-to or references signal
matched or total confidence reaches 40. -/
def fetchAndValidateReply (ctx : Ctx) (m : Msg) : Option ReplyCand :=
  match m.date with
  | some d => if d ≤ ctx.sentAt then none else fetchAndValidateBody ctx m
  | none => fetchAndValidateBody ctx m

/-- Absolute time distance of a candidate from the sent time;
`none` models the `float('inf')` branch for candidates without a parsed date. -/
def candDist (sentAt : Int) (c : ReplyCand) : Option Nat :=
  c.replyDate.map (fun d => (d - sentAt).natAbs)

/-- Order on distances with `none` as plus infinity. -/
def distLe : Option Nat → Option Nat → Bool
  | _, none => true
  | none, some _ => false
  | some a, some b => a ≤ b

/-- The `_select_best_reply` sort key order: ascending in `-confidence`, ties
by time distance (Python tuple key `(-confidence, |Δt|)`). -/
def candLe (sentAt : Int) (a b : ReplyCand) : Bool :=
  if a.confidence = b.confidence then distLe (candDist sentAt a) (candDist sentAt b)
  else decide (b.confidence < a.confidence)

/-- Stable insertion into a sorted list (equal keys keep the earlier element
first), the extensional behaviour of Python's stable `list.sort`. -/
def insertS (le : α → α → Bool) (x : α) : List α → List α
  | [] => [x]
  | y :: ys => if le x y then x :: y :: ys else y :: insertS le x ys

/-- Stable sort; extensionally equal to Python's `list.sort` with this key. -/
def isortBy (le : α → α → Bool) : List α → List α
  | [] => []
  | x :: xs => insertS le x (isortBy le xs)

/-- `_select_best_reply`: sort by the tuple key, return the first element
(`None` on an empty pool). -/
def selectBestReply (replies : List ReplyCand) (sentAt : Int) : Option ReplyCand :=
  (isortBy (candLe sentAt) replies).head?

/-- The folder-name exclusion patterns of `find_reply`. -/
def excludePatterns : List Str :=
  [str ("sent"), str ("отправ"), str ("spam"), str ("junk"), str ("trash"),
   str ("корзин"), str ("удален")]

/-- A folder is excluded when any pattern occurs in its decoded lowercase name. -/
def isExcluded (decoded : Str) : Bool :=
  excludePatterns.any (fun p => isSub p (lowerS decoded))

/-- The ordered folder sweep list: `INBOX` first, then every listed folder
whose decoded name matches no exclusion pattern, skipping raw names already
present. -/
def searchFolders (store : List Folder) : List Str :=
  store.foldl
    (fun acc f =>
      if ¬ isExcluded f.decoded ∧ f.raw ∉ acc then acc ++ [f.raw] else acc)
    [str ("INBOX")]

/-- Select a folder by raw listing name (a missing folder models
`conn.select` failing, which the loop skips). -/
def storeFind (store : List Folder) (name : Str) : Option Folder :=
  store.find? (fun f => f.raw == name)

/-- All accepted candidates fetched from one folder. -/
def acceptedPool (ctx : Ctx) (msgs : List Msg) : List ReplyCand :=
  msgs.filterMap (fetchAndValidateReply ctx)

/-- The accepted pool of the folder selected under `name` (empty when the
folder cannot be selected). -/
def poolAtName (ctx : Ctx) (store : List Folder) (name : Str) : List ReplyCand :=
  match storeFind store name with
  | none => []
  | some f => acceptedPool ctx f.msgs

/-- The folder loop of `find_reply`: scan folders in order and return the
ranked best of the first folder whose accepted pool is non-empty. -/
def findLoop (ctx : Ctx) (store : List Folder) : List Str → Option ReplyCand
  | [] => none
  | n :: rest =>
      let pool := poolAtName ctx store n
      if pool = [] then findLoop ctx store rest
      else selectBestReply pool ctx.sentAt

/-- The context `find_reply` derives from the sent record (`now` stands for
`datetime.now()`, used when the sent date is missing or unparseable). -/
def mkCtx (sent : SentMail) (now : Int) : Ctx :=
  { smid := stripAngles sent.messageId, sto := lowerS sent.toAddr,
    ssub := sent.subject, sentAt := sent.date.getD now }

/-- `find_reply` of the multi-folder client: abort when the sent record has no
message id, else sweep the eligible folders. -/
def reserveFindReply (sent : SentMail) (store : List Folder) (now : Int) :
    Option ReplyCand :=
  if sent.messageId = [] then none
  else findLoop (mkCtx sent now) store (searchFolders store)

/-!  ## Ranking lemmas  -/

theorem insertS_mem {le : α → α → Bool} {x z : α} :
    ∀ {l : List α}, z ∈ insertS le x l → z = x ∨ z ∈ l := by
  intro l
  induction l with
  | nil => intro h; simp [insertS] at h; exact Or.inl h
  | cons y ys ih =>
      intro h
      by_cases hc : le x y = true
      · simp [insertS, hc] at h
        rcases h with h | h | h
        · exact Or.inl h
        · exact Or.inr (by simp [h])
        · exact Or.inr (by simp [h])
      · simp [insertS, hc] at h
        rcases h with h | h
        · exact Or.inr (by simp [h])
        · rcases ih h with h' | h'
          · exact Or.inl h'
          · exact Or.inr (by simp [h'])

theorem isortBy_mem {le : α → α → Bool} {z : α} :
    ∀ {l : List α}, z ∈ isortBy le l → z ∈ l := by
  intro l
  induction l with
  | nil => intro h; simp [isortBy] at h
  | cons y ys ih =>
      intro h
      rcases insertS_mem h with h' | h'
      · simp [h']
      · simp [ih h']

theorem mem_insertS_self {le : α → α → Bool} (x : α) :
    ∀ (l : List α), x ∈ insertS le x l := by
  intro l
  induction l with
  | nil => simp [insertS]
  | cons c cs ihc =>
      by_cases hc : le x c = true
      · simp [insertS, hc]
      · simp [insertS, hc]
        exact Or.inr ihc

theorem isortBy_eq_nil {le : α → α → Bool} :
    ∀ {l : List α}, isortBy le l = [] → l = [] := by
  intro l h
  cases l with
  | nil => rfl
  | cons a t =>
      exfalso
      have hm : a ∈ insertS le a (isortBy le t) := mem_insertS_self a _
      have : insertS le a (isortBy le t) = [] := h
      rw [this] at hm
      simp at hm

theorem head_isortBy_min {le : α → α → Bool}
    (htot : ∀ a b, le a b = true ∨ le b a = true)
    (htrans : ∀ a b c, le a b = true → le b c = true → le a c = true) :
    ∀ (l : List α) (x : α), (isortBy le l).head? = some x →
      ∀ y ∈ l, le x y = true := by
  intro l
  induction l with
  | nil => intro x h; simp [isortBy] at h
  | cons a t ih =>
      intro x h y hy
      cases hsrt : isortBy le t with
      | nil =>
          have ht : t = [] := isortBy_eq_nil hsrt
          subst ht
          have hx : x = a := by
            simp [isortBy, insertS] at h
            exact h.symm
          have hy' : y = a := by simpa using hy
          rw [hx, hy']
          exact (htot a a).elim id id
      | cons b s =>
          have hb : (isortBy le t).head? = some b := by simp [hsrt]
          have ihb := ih b hb
          have hins : isortBy le (a :: t) = insertS le a (b :: s) := by
            simp [isortBy, hsrt]
          rw [hins] at h
          by_cases hab : le a b = true
          · have hx : x = a := by simp [insertS, hab] at h; exact h.symm
            rcases List.mem_cons.mp hy with hya | hyt
            · rw [hx, hya]
              exact (htot a a).elim id id
            · rw [hx]
              exact htrans _ _ _ hab (ihb y hyt)
          · have hx : x = b := by simp [insertS, hab] at h; exact h.symm
            rcases List.mem_cons.mp hy with hya | hyt
            · rw [hx, hya]
              rcases htot a b with h1 | h1
              · exact absurd h1 hab
              · exact h1
            · rw [hx]
              exact ihb y hyt

theorem head?_mem {l : List α} {x : α} (h : l.head? = some x) : x ∈ l := by
  cases l with
  | nil => simp at h
  | cons a t => simp at h; simp [h]

theorem candLe_total (sentAt : Int) (a b : ReplyCand) :
    candLe sentAt a b = true ∨ candLe sentAt b a = true := by
  unfold candLe
  by_cases h : a.confidence = b.confidence
  · simp [h]
    unfold distLe
    cases candDist sentAt a with
    | none => cases candDist sentAt b with
      | none => simp
      | some n => simp
    | some m => cases candDist sentAt b with
      | none => simp
      | some n => simp; omega
  · have h' : b.confidence ≠ a.confidence := fun hh => h hh.symm
    simp [h, h']

theorem candLe_trans (sentAt : Int) (a b c : ReplyCand) :
    candLe sentAt a b = true → candLe sentAt b c = true →
      candLe sentAt a c = true := by
  unfold candLe
  by_cases hab : a.confidence = b.confidence <;>
    by_cases hbc : b.confidence = c.confidence
  · have hac : a.confidence = c.confidence := hab.trans hbc
    simp [hab, hbc, hac]
    unfold distLe
    cases candDist sentAt a with
    | none =>
        cases candDist sentAt b with
        | none => cases candDist sentAt c <;> simp
        | some n => cases candDist sentAt c <;> simp
    | some m =>
        cases candDist sentAt b with
        | none => cases candDist sentAt c <;> simp
        | some n =>
            cases candDist sentAt c with
            | none => simp
            | some k => simp; omega
  · have hac : a.confidence ≠ c.confidence := by rw [hab]; exact hbc
    simp [hab, hbc, hac]
  · have hac : a.confidence ≠ c.confidence := by rw [← hbc]; exact hab
    simp [hab, hbc, hac]
    all_goals intros
    all_goals omega
  · simp [hab, hbc]
    intro h1 h2
    by_cases hac : a.confidence = c.confidence
    · simp [hac]
      all_goals omega
    · simp [hac]
      all_goals omega

/-- The selected best reply is a member of the pool. -/
theorem selectBestReply_mem {pool : List ReplyCand} {sentAt : Int} {r : ReplyCand}
    (h : selectBestReply pool sentAt = some r) : r ∈ pool :=
  isortBy_mem (head?_mem h)

/-- The selected best reply ranks no worse than any pool member. -/
theorem selectBestReply_min {pool : List ReplyCand} {sentAt : Int} {r : ReplyCand}
    (h : selectBestReply pool sentAt = some r) :
    ∀ c ∈ pool, candLe sentAt r c = true :=
  head_isortBy_min (candLe_total sentAt) (candLe_trans sentAt) pool r h

/-- Maximal confidence of the selected reply. -/
theorem selectBestReply_conf {pool : List ReplyCand} {sentAt : Int} {r : ReplyCand}
    (h : selectBestReply pool sentAt = some r) :
    ∀ c ∈ pool, c.confidence ≤ r.confidence := by
  intro c hc
  have := selectBestReply_min h c hc
  unfold candLe at this
  by_cases hcc : r.confidence = c.confidence
  · omega
  · simp [hcc] at this; omega

/-- On a non-empty pool the selection returns something. -/
theorem selectBestReply_isSome (sentAt : Int) {pool : List ReplyCand}
    (h : pool ≠ []) : ∃ r, selectBestReply pool sentAt = some r := by
  unfold selectBestReply
  cases hs : isortBy (candLe sentAt) pool with
  | nil => exact absurd (isortBy_eq_nil hs) h
  | cons b s => exact ⟨b, by simp⟩

/-!  ## Correlation-engine lemmas  -/

theorem chainConf_eq_confSum (e r f m s : Bool) :
    chainConf e r f m s = confSum e r f m s := by
  cases e <;> cases r <;> cases f <;> cases m <;> cases s <;> rfl

theorem confSum_ge_50_of_exact {r f m s : Bool} :
    50 ≤ confSum true r f m s := by
  cases r <;> cases f <;> cases m <;> cases s <;> simp [confSum]

/-- The accepted candidate's confidence is the sum of the five independent
deltas. -/
theorem fv_confidence {ctx : Ctx} {m : Msg} {c : ReplyCand}
    (h : fetchAndValidateReply ctx m = some c) :
    c.confidence =
      confSum (sigExact ctx m) (sigRef ctx m) (sigFrom ctx m) (sigRe m)
        (sigSubj ctx m) := by
  unfold fetchAndValidateReply at h
  have hbody : ∀ (hb : fetchAndValidateBody ctx m = some c),
      c.confidence = confSum (sigExact ctx m) (sigRef ctx m) (sigFrom ctx m)
        (sigRe m) (sigSubj ctx m) := by
    intro hb
    unfold fetchAndValidateBody at hb
    by_cases hacc : (sigExact ctx m || sigRef ctx m ||
        decide (40 ≤ chainConf (sigExact ctx m) (sigRef ctx m) (sigFrom ctx m)
          (sigRe m) (sigSubj ctx m))) = true
    · simp only [hacc, if_true] at hb
      have := congrArg ReplyCand.confidence (Option.some.inj hb)
      simp at this
      rw [← this, chainConf_eq_confSum]
    · simp only [Bool.not_eq_true] at hacc
      simp [hacc] at hb
  cases hd : m.date with
  | none => rw [hd] at h; exact hbody h
  | some d =>
      rw [hd] at h
      by_cases hle : d ≤ ctx.sentAt
      · simp [hle] at h
      · simp [hle] at h; exact hbody h

/-- Acceptance characterisation: a candidate enters the pool iff it passes the
date gate and either direct signal matched or the summed confidence is ≥ 40. -/
theorem fv_accept_iff (ctx : Ctx) (m : Msg) :
    fetchAndValidateReply ctx m ≠ none ↔
      (dateOkB ctx m = true ∧
        (sigExact ctx m = true ∨ sigRef ctx m = true ∨
          40 ≤ confSum (sigExact ctx m) (sigRef ctx m) (sigFrom ctx m) (sigRe m)
            (sigSubj ctx m))) := by
  have hbody : fetchAndValidateBody ctx m ≠ none ↔
      (sigExact ctx m = true ∨ sigRef ctx m = true ∨
        40 ≤ confSum (sigExact ctx m) (sigRef ctx m) (sigFrom ctx m) (sigRe m)
          (sigSubj ctx m)) := by
    unfold fetchAndValidateBody
    simp only [chainConf_eq_confSum]
    by_cases hacc : (sigExact ctx m || sigRef ctx m ||
        decide (40 ≤ confSum (sigExact ctx m) (sigRef ctx m) (sigFrom ctx m)
          (sigRe m) (sigSubj ctx m))) = true
    · simp only [hacc, if_true]
      constructor
      · intro _
        simp only [Bool.or_eq_true, decide_eq_true_eq] at hacc
        tauto
      · intro _; simp
    · simp only [hacc, if_false]
      simp only [Bool.or_eq_true, decide_eq_true_eq] at hacc
      push_neg at hacc
      constructor
      · intro hne; exact absurd rfl hne
      · intro hor
        rcases hor with h1 | h1 | h1
        · exact absurd h1 hacc.1.1
        · exact absurd h1 hacc.1.2
        · exact absurd h1 (by omega)
  unfold fetchAndValidateReply dateOkB
  cases hd : m.date with
  | none => simpa using hbody
  | some d =>
      by_cases hle : d ≤ ctx.sentAt
      · simp [hle]
      · simp [hle]
        constructor
        · intro hne; exact ⟨by omega, hbody.mp hne⟩
        · intro ⟨_, h2⟩; exact hbody.mpr h2

/-- One step of the folder loop. -/
theorem findLoop_cons (ctx : Ctx) (store : List Folder) (n : Str)
    (rest : List Str) :
    findLoop ctx store (n :: rest) =
      if poolAtName ctx store n = [] then findLoop ctx store rest
      else selectBestReply (poolAtName ctx store n) ctx.sentAt := rfl

/-- If earlier folders in the sweep contribute empty pools, the loop skips
them. -/
theorem findLoop_append_empty {ctx : Ctx} {store : List Folder}
    {pre rest : List Str}
    (h : ∀ n ∈ pre, poolAtName ctx store n = []) :
    findLoop ctx store (pre ++ rest) = findLoop ctx store rest := by
  induction pre with
  | nil => rfl
  | cons n ns ih =>
      have hn : poolAtName ctx store n = [] := h n (by simp)
      have hrest : ∀ k ∈ ns, poolAtName ctx store k = [] :=
        fun k hk => h k (by simp [hk])
      simp only [List.cons_append]
      rw [findLoop_cons]
      simp [hn]
      exact ih hrest

/-- At the first folder with a non-empty accepted pool, the loop ranks and
returns that pool's best. -/
theorem findLoop_first {ctx : Ctx} {store : List Folder} {name : Str}
    {post : List Str} (h : poolAtName ctx store name ≠ []) :
    findLoop ctx store (name :: post) =
      selectBestReply (poolAtName ctx store name) ctx.sentAt := by
  rw [findLoop_cons]
  simp [h]

/-- The loop returns nothing iff every swept folder contributes an empty pool. -/
theorem findLoop_none_iff (ctx : Ctx) (store : List Folder) :
    ∀ names : List Str,
      (findLoop ctx store names = none ↔
        ∀ n ∈ names, poolAtName ctx store n = []) := by
  intro names
  induction names with
  | nil => simp [findLoop]
  | cons n rest ih =>
      by_cases hn : poolAtName ctx store n = []
      · rw [findLoop_cons]
        simp [hn, ih]
      · rw [findLoop_cons]
        simp only [hn, if_false]
        obtain ⟨r, hr⟩ := selectBestReply_isSome ctx.sentAt hn
        rw [hr]
        simp
        exact fun h => absurd h hn

/-- Generalised fold characterisation of the folder sweep list. -/
theorem searchFolders_fold_mem (n : Str) :
    ∀ (fs : List Folder) (acc : List Str),
      (n ∈ fs.foldl
          (fun acc f =>
            if ¬ isExcluded f.decoded ∧ f.raw ∉ acc then acc ++ [f.raw] else acc)
          acc ↔
        n ∈ acc ∨ ∃ f ∈ fs, f.raw = n ∧ isExcluded f.decoded = false) := by
  intro fs
  induction fs with
  | nil => intro acc; simp
  | cons f fs ih =>
      intro acc
      simp only [List.foldl_cons]
      by_cases hc : ¬ isExcluded f.decoded ∧ f.raw ∉ acc
      · rw [if_pos hc]
        rw [ih]
        constructor
        · rintro (hacc | ⟨g, hg, hgn, hge⟩)
          · rcases List.mem_append.mp hacc with h1 | h1
            · exact Or.inl h1
            · refine Or.inr ⟨f, by simp, ?_, ?_⟩
              · have : n = f.raw := by simpa using h1
                exact this.symm
              · simpa using hc.1
          · exact Or.inr ⟨g, by simp [hg], hgn, hge⟩
        · rintro (hacc | ⟨g, hg, hgn, hge⟩)
          · exact Or.inl (List.mem_append.mpr (Or.inl hacc))
          · rcases List.mem_cons.mp hg with hgf | hgf
            · subst hgf
              exact Or.inl (List.mem_append.mpr (Or.inr (by simp [hgn])))
            · exact Or.inr ⟨g, hgf, hgn, hge⟩
      · rw [if_neg hc]
        rw [ih]
        constructor
        · rintro (hacc | ⟨g, hg, hgn, hge⟩)
          · exact Or.inl hacc
          · exact Or.inr ⟨g, by simp [hg], hgn, hge⟩
        · rintro (hacc | ⟨g, hg, hgn, hge⟩)
          · exact Or.inl hacc
          · rcases List.mem_cons.mp hg with hgf | hgf
            · subst hgf
              rw [Decidable.not_and_iff_or_not] at hc
              rcases hc with h1 | h1
              · simp only [Bool.not_eq_false, not_not] at h1
                rw [h1] at hge; exact absurd hge (by simp)
              · simp only [not_not] at h1
                rw [hgn] at h1
                exact Or.inl h1
            · exact Or.inr ⟨g, hgf, hgn, hge⟩

/-- Folder eligibility: a name is swept iff it is the inbox or a listed
folder whose decoded name matches no exclusion pattern. -/
theorem searchFolders_mem (store : List Folder) (n : Str) :
    n ∈ searchFolders store ↔
      n = str ("INBOX") ∨
        ∃ f ∈ store, f.raw = n ∧ isExcluded f.decoded = false := by
  unfold searchFolders
  rw [searchFolders_fold_mem]
  simp

/-- Pool membership of a loop result. -/
theorem findLoop_some_mem {ctx : Ctx} {store : List Folder} {r : ReplyCand} :
    ∀ {names : List Str}, findLoop ctx store names = some r →
      ∃ n ∈ names, r ∈ poolAtName ctx store n := by
  intro names
  induction names with
  | nil => intro h; simp [findLoop] at h
  | cons n rest ih =>
      intro h
      rw [findLoop_cons] at h
      by_cases hn : poolAtName ctx store n = []
      · rw [if_pos hn] at h
        obtain ⟨k, hk, hr⟩ := ih h
        exact ⟨k, by simp [hk], hr⟩
      · rw [if_neg hn] at h
        exact ⟨n, by simp, selectBestReply_mem h⟩

/-- A validated candidate taken from a folder's fetch list is in its pool. -/
theorem mem_acceptedPool {ctx : Ctx} {msgs : List Msg} {m : Msg} {c : ReplyCand}
    (hm : m ∈ msgs) (hv : fetchAndValidateReply ctx m = some c) :
    c ∈ acceptedPool ctx msgs :=
  List.mem_filterMap.mpr ⟨m, hm, hv⟩

/-!  ## Concrete correlation fixtures  -/

/-- Sent record used by the correlation counterexamples: id present, sent at
time 100. -/
def cSent : SentMail :=
  { toAddr := str ("bob@x.com"), subject := str ("hello"), date := some 100,
    messageId := str ("<id1>") }

/-- Inbox candidate matching only by sender and subject similarity
(confidence 45). -/
def m45 : Msg :=
  { inReplyTo := str (""), references := str (""),
    fromAddr := str ("Bob <bob@x.com>"), subject := str ("hello"),
    date := some 200, messageId := str ("<r45>"), body := str ("b45") }

/-- Second-folder candidate whose in-reply-to equals the sent id
(confidence 50). -/
def m50 : Msg :=
  { inReplyTo := str ("<id1>"), references := str (""),
    fromAddr := str ("carol@y.com"), subject := str ("xyz"),
    date := some 150, messageId := str ("<r50>"), body := str ("b50") }

/-- A store with the weak match in the inbox and the exact match in a later
eligible folder. -/
def cStore : List Folder :=
  [{ raw := str ("INBOX"), decoded := str ("INBOX"), msgs := [m45] },
   { raw := str ("Work"), decoded := str ("Work"), msgs := [m50] }]

/-- The accepted candidate built from `m45`. -/
def c45val : ReplyCand :=
  { messageId := str ("<r45>"), fromAddr := str ("bob <bob@x.com>"),
    subject := str ("hello"), body := str ("b45"), confidence := 45,
    replyDate := some 200, inReplyTo := str (""), references := str ("") }

/-- The accepted candidate built from `m50`. -/
def c50val : ReplyCand :=
  { messageId := str ("<r50>"), fromAddr := str ("carol@y.com"),
    subject := str ("xyz"), body := str ("b50"), confidence := 50,
    replyDate := some 150, inReplyTo := str ("id1"), references := str ("") }

/-- Sent record whose candidate reply carries no parseable date. -/
def cSent2 : SentMail :=
  { toAddr := str ("bob@x.com"), subject := str ("hello"), date := some 1000,
    messageId := str ("<id2>") }

/-- Candidate with an unparseable `Date` header (`date = none`) but strong
secondary signals (confidence 65). -/
def mNoDate : Msg :=
  { inReplyTo := str (""), references := str (""),
    fromAddr := str ("Bob <bob@x.com>"), subject := str ("Re: hello"),
    date := none, messageId := str ("<rn>"), body := str ("bn") }

/-- A store whose inbox only holds the undated candidate. -/
def cStore2 : List Folder :=
  [{ raw := str ("INBOX"), decoded := str ("INBOX"), msgs := [mNoDate] }]

/-- The accepted candidate built from `mNoDate`. -/
def cNoDate : ReplyCand :=
  { messageId := str ("<rn>"), fromAddr := str ("bob <bob@x.com>"),
    subject := str ("Re: hello"), body := str ("bn"), confidence := 65,
    replyDate := none, inReplyTo := str (""), references := str ("") }

/-- Single-folder store holding only the exact-match reply, used as witness
data. -/
def wStore : List Folder :=
  [{ raw := str ("INBOX"), decoded := str ("INBOX"), msgs := [m50] }]

/-- C1 counterexample: the deltas and acceptance rule hold per candidate, but
the final clause fails across folders — an exact in-reply-to reply sits in the
eligible folder "Work" (and passes the date gate), yet correlation returns the
confidence-45 inbox candidate, so the returned confidence is below 50. -/
theorem claim_C1_counterexample :
    reserveFindReply cSent cStore 0 = some c45val ∧
    c45val.confidence = 45 ∧
    str ("Work") ∈ searchFolders cStore ∧
    storeFind cStore (str ("Work")) =
      some { raw := str ("Work"), decoded := str ("Work"), msgs := [m50] } ∧
    sigExact (mkCtx cSent 0) m50 = true ∧
    dateOkB (mkCtx cSent 0) m50 = true ∧
    ¬ 50 ≤ c45val.confidence := by
  refine ⟨by decide, by decide, by decide, by decide, by decide, by decide, by decide⟩

/-- C1 amended: each fetched candidate's confidence is the sum of the five
independent deltas and it is accepted iff the direct signals matched or the
sum reaches 40 (after the temporal gate); and when a reply whose in-reply-to
equals the sent id is fetched in the first eligible folder contributing any
accepted candidate, correlation returns a candidate with confidence ≥ 50. -/
theorem claim_C1_amended :
    (∀ (ctx : Ctx) (m : Msg) (c : ReplyCand),
        fetchAndValidateReply ctx m = some c →
          c.confidence = confSum (sigExact ctx m) (sigRef ctx m) (sigFrom ctx m)
            (sigRe m) (sigSubj ctx m)) ∧
    (∀ (ctx : Ctx) (m : Msg),
        fetchAndValidateReply ctx m ≠ none ↔
          (dateOkB ctx m = true ∧
            (sigExact ctx m = true ∨ sigRef ctx m = true ∨
              40 ≤ confSum (sigExact ctx m) (sigRef ctx m) (sigFrom ctx m)
                (sigRe m) (sigSubj ctx m)))) ∧
    (∀ (sent : SentMail) (store : List Folder) (now : Int)
        (pre post : List Str) (name : Str) (f : Folder) (m : Msg),
        sent.messageId ≠ [] →
        searchFolders store = pre ++ name :: post →
        (∀ k ∈ pre, poolAtName (mkCtx sent now) store k = []) →
        storeFind store name = some f →
        m ∈ f.msgs →
        sigExact (mkCtx sent now) m = true →
        dateOkB (mkCtx sent now) m = true →
        ∃ r, reserveFindReply sent store now = some r ∧ 50 ≤ r.confidence) := by
  refine ⟨fun ctx m c h => fv_confidence h, fun ctx m => fv_accept_iff ctx m, ?_⟩
  intro sent store now pre post name f m hmid hsf hpre hfind hm hexact hdate
  set ctx := mkCtx sent now with hctx
  have haccept : fetchAndValidateReply ctx m ≠ none := by
    rw [fv_accept_iff]
    exact ⟨hdate, Or.inl hexact⟩
  obtain ⟨c, hc⟩ := Option.ne_none_iff_exists'.mp haccept
  have hconf : 50 ≤ c.confidence := by
    rw [fv_confidence hc, hexact]
    exact confSum_ge_50_of_exact
  have hcpool : c ∈ poolAtName ctx store name := by
    unfold poolAtName
    rw [hfind]
    exact mem_acceptedPool hm hc
  have hpoolne : poolAtName ctx store name ≠ [] :=
    List.ne_nil_of_mem hcpool
  obtain ⟨r, hr⟩ := selectBestReply_isSome ctx.sentAt hpoolne
  refine ⟨r, ?_, ?_⟩
  · unfold reserveFindReply
    rw [if_neg hmid, ← hctx, hsf, findLoop_append_empty hpre,
      findLoop_first hpoolne]
    exact hr
  · exact le_trans hconf (selectBestReply_conf hr c hcpool)

/-- C1 witness: in a store whose first eligible folder holds the exact-match
reply, correlation returns a candidate with confidence at least 50. -/
theorem claim_C1_witness :
    ∃ r, reserveFindReply cSent wStore 0 = some r ∧ 50 ≤ r.confidence :=
  claim_C1_amended.2.2 cSent wStore 0 [] [] (str ("INBOX"))
    { raw := str ("INBOX"), decoded := str ("INBOX"), msgs := [m50] } m50
    (by decide) (by decide) (by intro k hk; simp at hk) (by decide) (by decide)
    (by decide) (by decide)

/-- C2 counterexample: a candidate whose `Date` header did not parse
(`replyDate = none`) is not discarded — it is accepted on its other signals
and returned, although it has no received timestamp strictly after the sent
time 1000. -/
theorem claim_C2_counterexample :
    (mkCtx cSent2 0).sentAt = 1000 ∧
    reserveFindReply cSent2 cStore2 0 = some cNoDate ∧
    cNoDate.replyDate = none := by
  refine ⟨by decide, by decide, by decide⟩

/-- C2 amended: every candidate whose received date parsed is discarded before
confidence is computed unless it is strictly after the sent time, and the
engine never returns a candidate with a parsed date that is not strictly
later; candidates whose date is missing or unparseable bypass the gate. -/
theorem claim_C2_amended :
    (∀ (ctx : Ctx) (m : Msg) (c : ReplyCand),
        fetchAndValidateReply ctx m = some c →
          ∀ d, c.replyDate = some d → ctx.sentAt < d) ∧
    (∀ (sent : SentMail) (store : List Folder) (now : Int) (r : ReplyCand),
        reserveFindReply sent store now = some r →
          ∀ d, r.replyDate = some d → (mkCtx sent now).sentAt < d) := by
  have hval : ∀ (ctx : Ctx) (m : Msg) (c : ReplyCand),
      fetchAndValidateReply ctx m = some c →
        ∀ d, c.replyDate = some d → ctx.sentAt < d := by
    intro ctx m c h d hd
    unfold fetchAndValidateReply at h
    have hbodyDate : ∀ (hb : fetchAndValidateBody ctx m = some c),
        c.replyDate = m.date := by
      intro hb
      unfold fetchAndValidateBody at hb
      by_cases hacc : (sigExact ctx m || sigRef ctx m ||
          decide (40 ≤ chainConf (sigExact ctx m) (sigRef ctx m)
            (sigFrom ctx m) (sigRe m) (sigSubj ctx m))) = true
      · simp only [hacc, if_true] at hb
        have := congrArg ReplyCand.replyDate (Option.some.inj hb)
        simpa using this.symm
      · simp only [Bool.not_eq_true] at hacc
        simp [hacc] at hb
    cases hmd : m.date with
    | none =>
        rw [hmd] at h
        have := hbodyDate h
        rw [hmd] at this
        rw [this] at hd
        simp at hd
    | some dd =>
        rw [hmd] at h
        by_cases hle : dd ≤ ctx.sentAt
        · simp [hle] at h
        · simp [hle] at h
          have := hbodyDate h
          rw [hmd] at this
          rw [this] at hd
          have hdd : dd = d := by simpa using hd
          omega
  refine ⟨hval, ?_⟩
  intro sent store now r h d hd
  unfold reserveFindReply at h
  by_cases hmid : sent.messageId = []
  · simp [hmid] at h
  · rw [if_neg hmid] at h
    obtain ⟨n, _, hrp⟩ := findLoop_some_mem h
    unfold poolAtName at hrp
    cases hfind : storeFind store n with
    | none => rw [hfind] at hrp; simp at hrp
    | some f =>
        rw [hfind] at hrp
        obtain ⟨m, _, hv⟩ := List.mem_filterMap.mp hrp
        exact hval (mkCtx sent now) m r hv d hd

/-- C2 witness: the returned candidate of the first fixture has its parsed
date 200 strictly after the sent time 100. -/
theorem claim_C2_witness : (mkCtx cSent 0).sentAt < 200 :=
  claim_C2_amended.2 cSent cStore 0 c45val (by decide) 200 (by decide)

/-- C3 counterexample: the engine returns the best candidate of the first
folder with a non-empty pool (confidence 45 from the inbox), not the best
over all eligible folders — folder "Work" is eligible and its pool's
candidate has confidence 50, which ranks first over the combined pool. -/
theorem claim_C3_counterexample :
    reserveFindReply cSent cStore 0 = some c45val ∧
    str ("Work") ∈ searchFolders cStore ∧
    poolAtName (mkCtx cSent 0) cStore (str ("Work")) = [c50val] ∧
    selectBestReply
      (poolAtName (mkCtx cSent 0) cStore (str ("INBOX")) ++
        poolAtName (mkCtx cSent 0) cStore (str ("Work")))
      (mkCtx cSent 0).sentAt = some c50val ∧
    c45val ≠ c50val := by
  refine ⟨by decide, by decide, by decide, by decide, by decide⟩

/-- C3 amended: for a sent record with a message id, the sweep visits the
inbox first and then every listed folder whose decoded name matches no
exclusion pattern; `None` is returned iff every swept folder contributes an
empty accepted pool; and the returned reply is the ranked best of the first
folder whose pool is non-empty (folders after it are not consulted). -/
theorem claim_C3_amended :
    (∀ (store : List Folder) (n : Str),
        n ∈ searchFolders store ↔
          n = str ("INBOX") ∨
            ∃ f ∈ store, f.raw = n ∧ isExcluded f.decoded = false) ∧
    (∀ (sent : SentMail) (store : List Folder) (now : Int),
        sent.messageId ≠ [] →
          (reserveFindReply sent store now = none ↔
            ∀ n ∈ searchFolders store,
              poolAtName (mkCtx sent now) store n = [])) ∧
    (∀ (sent : SentMail) (store : List Folder) (now : Int)
        (pre post : List Str) (name : Str),
        sent.messageId ≠ [] →
        searchFolders store = pre ++ name :: post →
        (∀ k ∈ pre, poolAtName (mkCtx sent now) store k = []) →
        poolAtName (mkCtx sent now) store name ≠ [] →
        reserveFindReply sent store now =
          selectBestReply (poolAtName (mkCtx sent now) store name)
            (mkCtx sent now).sentAt) := by
  refine ⟨searchFolders_mem, ?_, ?_⟩
  · intro sent store now hmid
    unfold reserveFindReply
    rw [if_neg hmid]
    exact findLoop_none_iff (mkCtx sent now) store (searchFolders store)
  · intro sent store now pre post name hmid hsf hpre hne
    unfold reserveFindReply
    rw [if_neg hmid, hsf, findLoop_append_empty hpre, findLoop_first hne]

/-- C3 witness: on the two-folder fixture the engine returns exactly the
ranked best of the inbox pool, the first non-empty one. -/
theorem claim_C3_witness :
    reserveFindReply cSent cStore 0 =
      selectBestReply (poolAtName (mkCtx cSent 0) cStore (str ("INBOX")))
        (mkCtx cSent 0).sentAt :=
  claim_C3_amended.2.2 cSent cStore 0 [] [str ("Work")] (str ("INBOX"))
    (by decide) (by decide) (by intro k hk; simp at hk) (by decide)

/-- Tied candidate A (confidence 40, no parsed date). -/
def tieA : ReplyCand :=
  { messageId := str ("<a>"), fromAddr := str ("a@a"), subject := str ("s"),
    body := str ("1"), confidence := 40, replyDate := none,
    inReplyTo := str (""), references := str ("") }

/-- Tied candidate B, equal key but a different message. -/
def tieB : ReplyCand :=
  { messageId := str ("<b>"), fromAddr := str ("a@a"), subject := str ("s"),
    body := str ("2"), confidence := 40, replyDate := none,
    inReplyTo := str (""), references := str ("") }

/-- Candidate with confidence 50 used for the determinism example. -/
def d50c : ReplyCand :=
  { messageId := str ("<c>"), fromAddr := str ("a@a"), subject := str ("s"),
    body := str ("3"), confidence := 50, replyDate := some 10,
    inReplyTo := str (""), references := str ("") }

/-- Candidate with confidence 45 used for the determinism example. -/
def d45c : ReplyCand :=
  { messageId := str ("<d>"), fromAddr := str ("a@a"), subject := str ("s"),
    body := str ("4"), confidence := 45, replyDate := some 5,
    inReplyTo := str (""), references := str ("") }

/-- C9 counterexample: with two distinct candidates tied on confidence and
time distance the returned reply depends on fetch order (the stable sort
keeps the first-fetched in front), so the result is not order-independent in
general. -/
theorem claim_C9_counterexample :
    selectBestReply [tieA, tieB] 0 = some tieA ∧
    selectBestReply [tieB, tieA] 0 = some tieB ∧
    tieA ≠ tieB := by
  refine ⟨by decide, by decide, by decide⟩

/-- C9 amended: the returned reply is a pool member of maximal confidence,
and among candidates of equal confidence its time distance is minimal; fetch
order can only matter for candidates tied on both confidence and distance (the
first fetched wins); in particular with confidences 50 and 45 the
50-confidence candidate is returned regardless of fetch order. -/
theorem claim_C9_amended :
    (∀ (sentAt : Int) (pool : List ReplyCand) (r : ReplyCand),
        selectBestReply pool sentAt = some r →
          r ∈ pool ∧
          (∀ c ∈ pool, c.confidence ≤ r.confidence) ∧
          (∀ c ∈ pool, c.confidence = r.confidence →
            distLe (candDist sentAt r) (candDist sentAt c) = true)) ∧
    (selectBestReply [d50c, d45c] 0 = some d50c ∧
      selectBestReply [d45c, d50c] 0 = some d50c) := by
  refine ⟨?_, by decide, by decide⟩
  intro sentAt pool r h
  refine ⟨selectBestReply_mem h, selectBestReply_conf h, ?_⟩
  intro c hc hcc
  have := selectBestReply_min h c hc
  unfold candLe at this
  rw [if_pos hcc.symm] at this
  exact this

/-- C9 witness: applying the ranking theorem to the tied pool shows the
returned candidate is a member of maximal confidence. -/
theorem claim_C9_witness :
    tieA ∈ [tieA, tieB] ∧ tieB.confidence ≤ tieA.confidence :=
  ⟨(claim_C9_amended.1 0 [tieA, tieB] tieA (by decide)).1,
   (claim_C9_amended.1 0 [tieA, tieB] tieA (by decide)).2.1 tieB (by decide)⟩

/-!  ## Resilient extraction engine (`src/lm_studio_client.py`)

JSON documents are embedded as the `J` tree and `json.loads` as the fuelled
recursive-descent `jloads`.  Numbers are modelled as integers only: no input
relevant to the claims contains fractional or exponent literals, and `jloads`
rejects them rather than approximating floats. -/

/-- JSON values (`json.loads` results). -/
inductive J where
  | jstr : Str → J
  | jnum : Int → J
  | jbool : Bool → J
  | jnull : J
  | jarr : List J → J
  | jobj : List (Str × J) → J

/-- JSON insignificant whitespace. -/
def isJWs (n : Nat) : Bool := n = 32 || n = 9 || n = 10 || n = 13

/-- Hexadecimal digit value for `\u` escapes. -/
def hexVal (n : Nat) : Option Nat :=
  if 48 ≤ n ∧ n ≤ 57 then some (n - 48)
  else if 97 ≤ n ∧ n ≤ 102 then some (n - 87)
  else if 65 ≤ n ∧ n ≤ 70 then some (n - 55)
  else none

/-- Parse a JSON string body after the opening quote; returns the decoded
content and the rest after the closing quote. -/
def parseStrBody : Nat → Str → Option (Str × Str)
  | 0, _ => none
  | _ + 1, [] => none
  | fuel + 1, c :: rest =>
      if c = 34 then some ([], rest)
      else if c = 92 then
        match rest with
        | [] => none
        | e :: rest2 =>
            let dec : Option (Nat × Str) :=
              if e = 34 then some (34, rest2)
              else if e = 92 then some (92, rest2)
              else if e = 47 then some (47, rest2)
              else if e = 98 then some (8, rest2)
              else if e = 102 then some (12, rest2)
              else if e = 110 then some (10, rest2)
              else if e = 114 then some (13, rest2)
              else if e = 116 then some (9, rest2)
              else if e = 117 then
                match rest2 with
                | h1 :: h2 :: h3 :: h4 :: rest3 =>
                    match hexVal h1, hexVal h2, hexVal h3, hexVal h4 with
                    | some a, some b, some cc, some d =>
                        some (((a * 16 + b) * 16 + cc) * 16 + d, rest3)
                    | _, _, _, _ => none
                | _ => none
              else none
            match dec with
            | none => none
            | some (ch, rest') =>
                match parseStrBody fuel rest' with
                | none => none
                | some (s, r) => some (ch :: s, r)
      else if c < 32 then none
      else
        match parseStrBody fuel rest with
        | none => none
        | some (s, r) => some (c :: s, r)

/-- Parse an unsigned decimal integer (first digit required). -/
def parseDigits : Str → Option (Nat × Str)
  | [] => none
  | c :: rest =>
      if isDigitC c then
        let f := fun (r : Str) (acc : Nat) =>
          let rec go : Str → Nat → Nat × Str
            | [], acc => (acc, [])
            | d :: t, acc =>
                if isDigitC d then go t (acc * 10 + (d - 48)) else (acc, d :: t)
          go r acc
        some (f rest (c - 48))
      else none

mutual

/-- `json.loads` value parser (fuelled). -/
def parseVal : Nat → Str → Option (J × Str)
  | 0, _ => none
  | fuel + 1, s =>
      match s.dropWhile isJWs with
      | [] => none
      | c :: rest =>
          if c = 123 then
            match rest.dropWhile isJWs with
            | 125 :: r2 => some (J.jobj [], r2)
            | r1 => parseMembers fuel r1 []
          else if c = 91 then
            match rest.dropWhile isJWs with
            | 93 :: r2 => some (J.jarr [], r2)
            | r1 => parseElems fuel r1 []
          else if c = 34 then
            match parseStrBody (rest.length + 1) rest with
            | none => none
            | some (content, r) => some (J.jstr content, r)
          else if c = 116 then
            match rest with
            | 114 :: 117 :: 101 :: r => some (J.jbool true, r)
            | _ => none
          else if c = 102 then
            match rest with
            | 97 :: 108 :: 115 :: 101 :: r => some (J.jbool false, r)
            | _ => none
          else if c = 110 then
            match rest with
            | 117 :: 108 :: 108 :: r => some (J.jnull, r)
            | _ => none
          else if c = 45 then
            match parseDigits rest with
            | some (n, r) =>
                match r with
                | 46 :: _ => none
                | 101 :: _ => none
                | 69 :: _ => none
                | _ => some (J.jnum (-(n : Int)), r)
            | none => none
          else if isDigitC c then
            match parseDigits (c :: rest) with
            | some (n, r) =>
                match r with
                | 46 :: _ => none
                | 101 :: _ => none
                | 69 :: _ => none
                | _ => some (J.jnum (n : Int), r)
            | none => none
          else none

/-- Object members after `{` (first member pending). -/
def parseMembers : Nat → Str → List (Str × J) → Option (J × Str)
  | 0, _, _ => none
  | fuel + 1, s, acc =>
      match s.dropWhile isJWs with
      | 34 :: rest =>
          match parseStrBody (rest.length + 1) rest with
          | none => none
          | some (key, r1) =>
              match r1.dropWhile isJWs with
              | 58 :: r2 =>
                  match parseVal fuel r2 with
                  | none => none
                  | some (v, r3) =>
                      match r3.dropWhile isJWs with
                      | 44 :: r4 => parseMembers fuel r4 (acc ++ [(key, v)])
                      | 125 :: r4 => some (J.jobj (acc ++ [(key, v)]), r4)
                      | _ => none
              | _ => none
      | _ => none

/-- Array elements after `[` (first element pending). -/
def parseElems : Nat → Str → List J → Option (J × Str)
  | 0, _, _ => none
  | fuel + 1, s, acc =>
      match parseVal fuel s with
      | none => none
      | some (v, r) =>
          match r.dropWhile isJWs with
          | 44 :: r2 => parseElems fuel r2 (acc ++ [v])
          | 93 :: r2 => some (J.jarr (acc ++ [v]), r2)
          | _ => none

end

/-- `json.loads`: parse one document and require only whitespace after it. -/
def jloads (s : Str) : Option J :=
  match parseVal (2 * s.length + 4) s with
  | none => none
  | some (v, rest) => if rest.dropWhile isJWs = [] then some v else none

/-- Last-wins key lookup, matching Python dict construction from JSON. -/
def jget (kvs : List (Str × J)) (k : Str) : Option J :=
  (kvs.reverse.find? (fun kv => decide (kv.1 = k))).map (fun kv => kv.2)

/-- Decimal rendering of an integer (Python `str`). -/
def intStr (n : Int) : Str :=
  if n < 0 then 45 :: (Nat.toDigits 10 n.natAbs).map Char.toNat
  else (Nat.toDigits 10 n.natAbs).map Char.toNat

mutual

/-- Python `str(value)` for JSON-derived values. -/
def pyRender : J → Str
  | .jstr s => s
  | .jnum n => intStr n
  | .jbool b => if b then str ("True") else str ("False")
  | .jnull => str ("None")
  | .jarr xs => 91 :: pyRenderList xs ++ [93]
  | .jobj kvs => 123 :: pyRenderObj kvs ++ [125]

/-- Python `repr` of list elements. -/
def pyRenderList : List J → Str
  | [] => []
  | [x] => pyReprAtom x
  | x :: y :: xs => pyReprAtom x ++ [44, 32] ++ pyRenderList (y :: xs)

/-- Python `repr` of one element (strings quoted with apostrophes). -/
def pyReprAtom : J → Str
  | .jstr s => 39 :: (s ++ [39])
  | .jnum n => intStr n
  | .jbool b => if b then str ("True") else str ("False")
  | .jnull => str ("None")
  | .jarr xs => 91 :: pyRenderList xs ++ [93]
  | .jobj kvs => 123 :: pyRenderObj kvs ++ [125]

/-- Python `repr` of dict items. -/
def pyRenderObj : List (Str × J) → Str
  | [] => []
  | [(k, v)] => 39 :: (k ++ [39]) ++ [58, 32] ++ pyReprAtom v
  | (k, v) :: w :: kvs =>
      39 :: (k ++ [39]) ++ [58, 32] ++ pyReprAtom v ++ [44, 32]
        ++ pyRenderObj (w :: kvs)

end

/-- One projected field: `data.get(field, "")`, strings kept, `None` to empty,
other values passed through `str`. -/
def projVal (kvs : List (Str × J)) (f : Str) : Str :=
  match jget kvs f with
  | none => []
  | some J.jnull => []
  | some (J.jstr s) => s
  | some v => pyRender v

/-- Lines split at newline (empty lines kept). -/
def splitLinesAux : Str → Str → List Str
  | [], cur => [cur.reverse]
  | c :: t, cur => if c = 10 then cur.reverse :: splitLinesAux t [] else splitLinesAux t (c :: cur)

/-- Lines of a string. -/
def splitLines (s : Str) : List Str := splitLinesAux s []

/-- Cut a line at its first `//` (regex `//.*?$` in multiline mode). -/
def cutLineComment : Str → Str
  | [] => []
  | 47 :: 47 :: _ => []
  | c :: t => c :: cutLineComment t

/-- Re-join lines with newlines. -/
def joinLines : List Str → Str
  | [] => []
  | [l] => l
  | l :: k :: ls => l ++ 10 :: joinLines (k :: ls)

/-- `re.sub(r'//.*?$', '', text, flags=MULTILINE)`. -/
def stripLineComments (s : Str) : Str := joinLines ((splitLines s).map cutLineComment)

/-- Rest after the nearest `*/` (lazy block-comment close). -/
def dropToClose : Str → Option Str
  | [] => none
  | 42 :: 47 :: t => some t
  | _ :: t => dropToClose t

/-- `re.sub(r'/\*.*?\*/', '', text, flags=DOTALL)` (fuelled scan). -/
def stripBlockGo : Nat → Str → Str
  | 0, s => s
  | _ + 1, [] => []
  | fuel + 1, 47 :: 42 :: t =>
      match dropToClose t with
      | some rest => stripBlockGo fuel rest
      | none => 47 :: 42 :: stripBlockGo fuel t
  | fuel + 1, c :: t => c :: stripBlockGo fuel t

/-- Remove lazy block comments. -/
def stripBlockComments (s : Str) : Str := stripBlockGo (s.length + 1) s

/-- `re.sub(r'\s+', ' ', text)`: collapse whitespace runs to single spaces. -/
def collapseAux : Bool → Str → Str
  | _, [] => []
  | prevWs, c :: t =>
      if isWs c then
        (if prevWs then collapseAux true t else 32 :: collapseAux true t)
      else c :: collapseAux false t

/-- `_clean_response_text`: strip `//` comments, block comments, collapse
whitespace and strip the ends. -/
def cleanText (s : Str) : Str :=
  stripWsB (collapseAux false (stripBlockComments (stripLineComments s)))

/-- `_try_parse_json`: clean, parse, require an object, project onto the
schema, reject all-blank projections. -/
def tryParseJson (t : Str) (fields : List Str) : Option (List (Str × Str)) :=
  if t = [] ∨ stripWsB t = [] then none
  else
    match jloads (cleanText t) with
    | none => none
    | some (J.jobj kvs) =>
        let result := fields.map (fun f => (f, projVal kvs f))
        if result.all (fun p => stripWsB p.2 = []) then none else some result
    | some _ => none

/-- The brace-depth scan of `_extract_json_objects`: the depth counter reacts
to every `{`/`}` (also those inside quoted strings — the code tracks no
string state), a start position is recorded when `{` is seen at depth 0, and a
candidate span is emitted whenever depth returns to exactly 0. -/
def scanGo : Str → Nat → Int → Option Nat → List (Nat × Nat) → List (Nat × Nat)
  | [], _, _, _, acc => acc.reverse
  | c :: rest, i, d, st, acc =>
      if c = 123 then
        scanGo rest (i + 1) (d + 1) (if d = 0 then some i else st) acc
      else if c = 125 then
        match st with
        | some s0 =>
            if d - 1 = 0 then scanGo rest (i + 1) (d - 1) none ((s0, i) :: acc)
            else scanGo rest (i + 1) (d - 1) st acc
        | none => scanGo rest (i + 1) (d - 1) st acc
      else scanGo rest (i + 1) d st acc

/-- Inclusive slice `s[a..b]`. -/
def sliceIncl (s : Str) (a b : Nat) : Str := (s.drop a).take (b + 1 - a)

/-- Candidate spans of the naive scan. -/
def naiveScanPairs (s : Str) : List (Nat × Nat) := scanGo s 0 0 none []

/-- Candidate substrings of the naive scan, in order of appearance. -/
def naiveScanCands (s : Str) : List Str :=
  (naiveScanPairs s).map (fun p => sliceIncl s p.1 p.2)

/-- `text.rfind('{')`. -/
def rfindBraceAux : Str → Nat → Option Nat → Option Nat
  | [], _, best => best
  | c :: t, i, best => rfindBraceAux t (i + 1) (if c = 123 then some i else best)

/-- Index of the last `{`, if any. -/
def rfindBrace (s : Str) : Option Nat := rfindBraceAux s 0 none

/-- The repair edits of `_try_fix_truncated_json`: right-strip, append one
quote if the total quote count is odd, append one `}` if `{`s outnumber
`}`s. -/
def fixCandidate (cand : Str) : Str :=
  let c1 := rstripWs cand
  let c2 := if c1.count 34 % 2 = 1 then c1 ++ [34] else c1
  if c2.count 125 < c2.count 123 then c2 ++ [125] else c2

/-- `_try_fix_truncated_json`: apply the repair edits, keep the candidate only
if the result parses. -/
def tryFixTruncated (cand : Str) : Option Str :=
  if (jloads (fixCandidate cand)).isSome then some (fixCandidate cand) else none

/-- `_extract_json_objects`: the naive scan's candidates; when it found none,
the repair of the stripped text from the last `{` to the end (the regex
fallback after the `return` in the source is dead code and not modelled). -/
def extractJsonObjects (t : Str) : List Str :=
  let cands := naiveScanCands t
  if cands = [] then
    match rfindBrace t with
    | none => []
    | some p =>
        match tryFixTruncated (stripWsB (t.drop p)) with
        | some c => [c]
        | none => []
  else cands

/-- The keyword anchors of `_extract_json_after_keywords`: a literal word
followed by optional whitespace and a colon, or a bare opening brace. -/
inductive KW where
  | kwWord : Str → KW
  | kwBrace : KW

/-- Case-insensitive literal match returning the rest. -/
def matchCI : Str → Str → Option Str
  | [], s => some s
  | _, [] => none
  | p :: ps, c :: cs => if lowChar c = lowChar p then matchCI ps cs else none

/-- Match one keyword anchor at the head of the text. -/
def kwHead : KW → Str → Option Str
  | .kwWord w, s =>
      match matchCI w s with
      | none => none
      | some r =>
          match r.dropWhile isWs with
          | 58 :: r2 => some r2
          | _ => none
  | .kwBrace, s =>
      match s with
      | 123 :: r => some r
      | _ => none

/-- Lazy `\{.*?\}` body: content up to the first `}` (inclusive) and the rest. -/
def lazyBody : Str → Option (Str × Str)
  | [] => none
  | c :: t =>
      if c = 125 then some ([125], t)
      else
        match lazyBody t with
        | some (b, r) => some (c :: b, r)
        | none => none

/-- `re.findall(keyword + '\s*(\{.*?\})', …)`: non-overlapping scan. -/
def findAllKwGo : Nat → KW → Str → List Str
  | 0, _, _ => []
  | _ + 1, _, [] => []
  | fuel + 1, kw, _c :: t =>
      match kwHead kw (_c :: t) with
      | some r =>
          match r.dropWhile isWs with
          | 123 :: r2 =>
              match lazyBody r2 with
              | some (b, rest) => (123 :: b) :: findAllKwGo fuel kw rest
              | none => findAllKwGo fuel kw t
          | _ => findAllKwGo fuel kw t
      | none => findAllKwGo fuel kw t

/-- All keyword-anchored brace candidates. -/
def findAllKw (kw : KW) (s : Str) : List Str := findAllKwGo (s.length + 1) kw s

/-- `re.search(keyword + '\s*(.*)', …)`: the stripped remainder after the
first keyword occurrence. -/
def searchKw : Str → KW → Option Str
  | [], _ => none
  | c :: t, kw =>
      match kwHead kw (c :: t) with
      | some r => some (stripWsB (r.dropWhile isWs))
      | none => searchKw t kw

/-- The ordered keyword list of `_extract_json_after_keywords`. -/
def kwList : List KW :=
  [KW.kwWord (str ("JSON")), KW.kwWord (str ("Результат")),
   KW.kwWord (str ("Ответ")), KW.kwWord (str ("Извлеченные данные")),
   KW.kwBrace]

/-- `_extract_json_after_keywords`: per keyword, the `findall` candidates and
then the layer-1 scan re-run on the remainder after the first occurrence. -/
def extractAfterKeywords (t : Str) : List Str :=
  kwList.foldl
    (fun acc kw =>
      acc ++ findAllKw kw t ++
        (match searchKw t kw with
         | some rem => extractJsonObjects rem
         | none => []))
    []

/-- First successful parse in a candidate list. -/
def firstSome : List (Option α) → Option α
  | [] => none
  | some a :: _ => some a
  | none :: t => firstSome t

/-- `_parse_response`: empty guard, then layer 1 (+ its embedded repair),
layer 3 whole-text parse, layer 4 keyword-anchored candidates. -/
def parseResponse (t : Str) (fields : List Str) : Option (List (Str × Str)) :=
  if t = [] ∨ stripWsB t = [] then none
  else
    match firstSome ((extractJsonObjects t).map (fun c => tryParseJson c fields)) with
    | some r => some r
    | none =>
        match tryParseJson (cleanText t) fields with
        | some r => some r
        | none =>
            firstSome ((extractAfterKeywords t).map (fun c => tryParseJson c fields))

/-- `analyze_email`'s unwrap of the HTTP envelope:
`result.get("choices", [{}])[0].get("text", "")`.  Any raised lookup error
(`choices` empty or not subscriptable, non-string text reaching `.strip()`)
is `Except.error`, which the surrounding `except` turns into `None`. -/
def extractChoicesText (j : J) : Except Unit Str :=
  match j with
  | J.jobj kvs =>
      match (jget kvs (str ("choices"))).getD (J.jarr [J.jobj []]) with
      | J.jarr [] => Except.error ()
      | J.jarr (x :: _) =>
          match x with
          | J.jobj kvs2 =>
              match (jget kvs2 (str ("text"))).getD (J.jstr []) with
              | J.jstr s => Except.ok s
              | J.jnull => Except.ok []
              | _ => Except.error ()
          | _ => Except.error ()
      | _ => Except.error ()
  | _ => Except.error ()

/-- `analyze_email` body: the transport outcome is the parsed HTTP response or
a raised transport/HTTP/JSON error; every exception inside the `try` block is
caught and turned into `None`, so the function itself never raises. -/
def analyzeEmail (transport : Except Unit J) (fields : List Str) :
    Option (List (Str × Str)) :=
  match transport with
  | .error _ => none
  | .ok j =>
      match extractChoicesText j with
      | .error _ => none
      | .ok text => parseResponse text fields

/-- `retry_with_backoff`'s attempt loop (`src/utils.py`): call the operation
up to `maxRetries` times, re-raising the final failure.  The operation is
indexed by the attempt number so that per-attempt outcomes can be stated. -/
def retryGo (f : Nat → Except Unit α) : Nat → Nat → Except Unit α
  | 0, i => f i
  | 1, i => f i
  | n + 2, i =>
      match f i with
      | .ok a => .ok a
      | .error _ => retryGo f (n + 1) (i + 1)

/-- `retry_with_backoff(max_retries)(func)` applied to an operation. -/
def retryWithBackoff (f : Nat → Except Unit α) (maxRetries : Nat) :
    Except Unit α :=
  retryGo f maxRetries 0

/-- The decorated `analyze_email` as called by the orchestrator: the decorator
(default three attempts) wraps a function that swallows its own exceptions. -/
def analyzeEmailDecorated (transport : Nat → Except Unit J)
    (fields : List Str) : Except Unit (Option (List (Str × Str))) :=
  retryWithBackoff (fun i => Except.ok (analyzeEmail (transport i) fields)) 3

/-!  ## Excel-layer response parser (`src/excel_processor.py`)  -/

/-- `['choices'][0]['text']` navigation on a parsed API response. -/
def apiPathText (s : Str) : Option Str :=
  match jloads s with
  | some (J.jobj kvs) =>
      match jget kvs (str ("choices")) with
      | some (J.jarr (J.jobj kvs2 :: _)) =>
          match jget kvs2 (str ("text")) with
          | some (J.jstr t) => some t
          | _ => none
      | _ => none
  | _ => none

/-- `['choices'][0]['message']['content']` navigation. -/
def apiPathMessage (s : Str) : Option Str :=
  match jloads s with
  | some (J.jobj kvs) =>
      match jget kvs (str ("choices")) with
      | some (J.jarr (J.jobj kvs2 :: _)) =>
          match jget kvs2 (str ("message")) with
          | some (J.jobj kvs3) =>
              match jget kvs3 (str ("content")) with
              | some (J.jstr t) => some t
              | _ => none
          | _ => none
      | _ => none
  | _ => none

/-- `_extract_text_from_api_response`: unwrap a completion-style envelope when
the text contains `"choices"` and `"text"`, else a chat-style envelope when it
contains `"choices"` and `"message"`; on any parse/lookup failure (and when
neither shape is detected) return the input unchanged. -/
def extractTextFromApiResponse (s : Str) : Str :=
  if isSub (str ("\"choices\"")) s ∧ isSub (str ("\"text\"")) s then
    (apiPathText s).getD s
  else if isSub (str ("\"choices\"")) s ∧ isSub (str ("\"message\"")) s then
    (apiPathMessage s).getD s
  else s

/-- The fixed field list of `_is_valid_response_json`. -/
def expectedFields : List Str :=
  [str ("Price usd"), str ("Price usd casino"), str ("Payment"),
   str ("Inform"), str ("Comments")]

/-- Python truthiness of a JSON-derived value. -/
def pyTruthy : J → Bool
  | .jstr s => decide (s ≠ [])
  | .jnum n => decide (n ≠ 0)
  | .jbool b => b
  | .jnull => false
  | .jarr xs => !xs.isEmpty
  | .jobj kvs => !kvs.isEmpty

/-- `str(value)` with strings passed through. -/
def pyStrOf : J → Str
  | .jstr s => s
  | v => pyRender v

/-- `_is_valid_response_json`: a dict containing at least one expected field,
with at least one expected field truthy and non-blank when stringified. -/
def isValidResponseJson : J → Bool
  | J.jobj kvs =>
      (expectedFields.any (fun f => (jget kvs f).isSome)) &&
      (expectedFields.any (fun f =>
        match jget kvs f with
        | some v => pyTruthy v && decide (stripWsB (pyStrOf v) ≠ [])
        | none => false))
  | _ => false

/-- First candidate that parses and validates (`json.loads(match.strip())`
per candidate). -/
def firstValidCand : List Str → Option J
  | [] => none
  | c :: rest =>
      match jloads (stripWsB c) with
      | some j => if isValidResponseJson j then some j else firstValidCand rest
      | none => firstValidCand rest

/-- Lazy close of a markdown block: content up to the first `}` that is
followed by optional whitespace and three backticks; the rest continues after
those backticks. -/
def mdFindClose : Str → Option (Str × Str)
  | [] => none
  | c :: t =>
      if c = 125 ∧ isPref (str ("```")) (t.dropWhile isWs) then
        some ([125], (t.dropWhile isWs).drop 3)
      else
        match mdFindClose t with
        | some (b, r) => some (c :: b, r)
        | none => none

/-- `re.findall(r'```json\s*(\{.*?\})\s*```', …, DOTALL|IGNORECASE)`. -/
def findMdGo : Nat → Str → List Str
  | 0, _ => []
  | _ + 1, [] => []
  | fuel + 1, c :: t =>
      match matchCI (str ("```json")) (c :: t) with
      | some r =>
          match r.dropWhile isWs with
          | 123 :: r2 =>
              match mdFindClose r2 with
              | some (b, rest) => (123 :: b) :: findMdGo fuel rest
              | none => findMdGo fuel t
          | _ => findMdGo fuel t
      | none => findMdGo fuel t

/-- Markdown-fenced JSON candidates. -/
def findMd (s : Str) : List Str := findMdGo (s.length + 1) s

/-- Key literals of the strategy-2 regex. -/
def st2Keys : List Str :=
  [str ("\"Price usd\""), str ("\"Payment\""), str ("\"Inform\"")]

/-- `re.findall(r'\{[^{}]*(?:"Price usd"[^{}]*|"Payment"[^{}]*|"Inform"[^{}]*)\}', …)`:
a brace pair with brace-free interior containing one of the key literals. -/
def findSt2Go : Nat → Str → List Str
  | 0, _ => []
  | _ + 1, [] => []
  | fuel + 1, c :: t =>
      if c = 123 then
        let inner := t.takeWhile (fun d => !(d == 123 || d == 125))
        let rest := t.dropWhile (fun d => !(d == 123 || d == 125))
        match rest with
        | 125 :: r2 =>
            if st2Keys.any (fun k => isSub k inner) then
              (123 :: (inner ++ [125])) :: findSt2Go fuel r2
            else findSt2Go fuel t
        | _ => findSt2Go fuel t
      else findSt2Go fuel t

/-- Strategy-2 candidates. -/
def findSt2 (s : Str) : List Str := findSt2Go (s.length + 1) s

/-- `_parse_json_line_by_line`: char-wise brace balancing with quoted-string
and escape state (newlines are consumed by the line split), attempting a
validated parse whenever the depth returns to zero. -/
def lineByLineGo : Str → Str → Int → Bool → Bool → Option J
  | [], _, _, _, _ => none
  | c :: t, cur, depth, inStr, esc =>
      if esc then lineByLineGo t (c :: cur) depth inStr false
      else if c = 92 ∧ inStr then lineByLineGo t (c :: cur) depth inStr true
      else if c = 34 then lineByLineGo t (c :: cur) depth (!inStr) false
      else if inStr then lineByLineGo t (c :: cur) depth inStr false
      else if c = 123 then
        let cur2 := if depth = 0 then [c] else c :: cur
        lineByLineGo t cur2 (depth + 1) inStr false
      else if c = 125 then
        if depth - 1 = 0 then
          match jloads (stripWsB (c :: cur).reverse) with
          | some j =>
              if isValidResponseJson j then some j
              else lineByLineGo t [] (depth - 1) inStr false
          | none => lineByLineGo t [] (depth - 1) inStr false
        else lineByLineGo t (c :: cur) (depth - 1) inStr false
      else if 0 < depth then lineByLineGo t (c :: cur) depth inStr false
      else lineByLineGo t cur depth inStr false

/-- Strategy 3 of `_extract_json_from_text`. -/
def parseJsonLineByLine (s : Str) : Option J :=
  lineByLineGo ((splitLines s).flatten) [] 0 false false

/-- `_extract_json_from_text`: markdown blocks, then the keyed regex, then the
line-by-line balancer. -/
def extractJsonFromText (t : Str) : Option J :=
  if t = [] then none
  else
    match firstValidCand (findMd t) with
    | some j => some j
    | none =>
        match firstValidCand (findSt2 t) with
        | some j => some j
        | none => parseJsonLineByLine t

/-- `parse_lm_studio_response`: unwrap a detected API envelope, then extract a
validated JSON object from the text (`none` models the `{}` failure return). -/
def parseLmStudioResponse (s : Str) : Option J :=
  extractJsonFromText (extractTextFromApiResponse s)

/-!  ## Refinement comparators written from the spec's words  -/

/-- Stack of indices of currently unmatched `{`s (standard bracket pairing). -/
def lastUnmatchedAux : Str → Nat → List Nat → List Nat
  | [], _, stack => stack
  | c :: t, i, stack =>
      if c = 123 then lastUnmatchedAux t (i + 1) (i :: stack)
      else if c = 125 then lastUnmatchedAux t (i + 1) stack.tail
      else lastUnmatchedAux t (i + 1) stack

/-- Index of the last unmatched `{`, the spec's anchoring point for
truncation repair. -/
def lastUnmatchedOpen (s : Str) : Option Nat := (lastUnmatchedAux s 0 []).head?

/-- Truncation repair as the claim words it: the text from the last unmatched
`{` to the end, one quote appended on an odd quote count, one `}` appended
when `{`s outnumber `}`s, kept only if it parses. -/
def specTruncRepair (t : Str) : Option Str :=
  match lastUnmatchedOpen t with
  | none => none
  | some p =>
      let c1 := t.drop p
      let c2 := if c1.count 34 % 2 = 1 then c1 ++ [34] else c1
      let c3 := if c2.count 125 < c2.count 123 then c2 ++ [125] else c2
      if (jloads c3).isSome then some c3 else none

/-- The claim-described repair followed by the pipeline's schema projection. -/
def specTruncRepairResult (t : Str) (fields : List Str) :
    Option (List (Str × Str)) :=
  match specTruncRepair t with
  | none => none
  | some c => tryParseJson c fields

/-- The brace scan as the claim words it: depth tracking that respects quoted
strings (an unescaped quote toggles in-string state, an escape consumes the
next character inside a string) so braces inside string values do not move
the depth counter. -/
def awareGo :
    Str → Nat → Int → Option Nat → Bool → Bool → List (Nat × Nat) →
      List (Nat × Nat)
  | [], _, _, _, _, _, acc => acc.reverse
  | c :: rest, i, d, st, inS, esc, acc =>
      if esc then awareGo rest (i + 1) d st inS false acc
      else if c = 92 ∧ inS then awareGo rest (i + 1) d st inS true acc
      else if c = 34 then awareGo rest (i + 1) d st (!inS) false acc
      else if inS then awareGo rest (i + 1) d st inS false acc
      else if c = 123 then
        awareGo rest (i + 1) (d + 1) (if d = 0 then some i else st) inS esc acc
      else if c = 125 then
        match st with
        | some s0 =>
            if d - 1 = 0 then
              awareGo rest (i + 1) (d - 1) none inS esc ((s0, i) :: acc)
            else awareGo rest (i + 1) (d - 1) st inS esc acc
        | none => awareGo rest (i + 1) (d - 1) st inS esc acc
      else awareGo rest (i + 1) d st inS esc acc

/-- String-aware candidate substrings per the claim's description. -/
def specStringAwareScan (s : Str) : List Str :=
  (awareGo s 0 0 none false false []).map (fun p => sliceIncl s p.1 p.2)

/-!  ## Extraction fixtures and claim theorems  -/

/-- The schema used by the spec's extraction examples. -/
def schema3 : List Str := [str ("Price usd"), str ("Payment"), str ("Comments")]

/-- Truncated raw text of the spec's repair example (closing quote and brace
missing). -/
def tTrunc : Str := str ("\x7b\"Price usd\": \"100\", \"Payment\": \"Pay")

/-- Raw text whose last `{` is matched while the first stays unmatched: an
outer truncated object with a complete nested object at the end. -/
def tNested : Str := str ("\x7b\"Payment\": \"Wire\", \"Q\": \x7b\"a\": \"b\"\x7d")

/-- Text with a brace inside a quoted string value. -/
def tQuoteBrace : Str := str ("\x7b\"a\":\"\x7d\"\x7d")

/-- The candidate the naive scan truncates out of `tQuoteBrace`. -/
def tQuoteBraceCut : Str := str ("\x7b\"a\":\"\x7d")

/-- The chat-style envelope string of the spec's unwrapping example. -/
def chatEnvStr : Str :=
  str ("\x7b\"choices\":[\x7b\"message\":\x7b\"content\":\"\x7b\\\"Payment\\\":\\\"Wire\\\"\x7d\"\x7d\x7d]\x7d")

/-- The same chat-style envelope as the parsed HTTP response body. -/
def chatEnvJson : J :=
  J.jobj [(str ("choices"), J.jarr [J.jobj
    [(str ("message"), J.jobj [(str ("content"),
      J.jstr (str ("\x7b\"Payment\":\"Wire\"\x7d")))])]])]

/-- A completion-style envelope carrying the same nested payload. -/
def complEnvJson : J :=
  J.jobj [(str ("choices"), J.jarr [J.jobj
    [(str ("text"), J.jstr (str ("\x7b\"Payment\":\"Wire\"\x7d")))]])]

/-- A completion-style envelope whose generated text holds no JSON at all. -/
def noDataEnv : J :=
  J.jobj [(str ("choices"), J.jarr [J.jobj
    [(str ("text"), J.jstr (str ("no data here")))]])]

/-- Transport that fails on the first attempt and would succeed afterwards. -/
def failTransport : Nat → Except Unit J :=
  fun i => if i = 0 then Except.error () else Except.ok complEnvJson

/-- C4 counterexample: a chat-style envelope in the raw text is not unwrapped
by the extraction pipeline — it parses as the whole envelope, projects to
all-blank and is rejected, so extraction yields `None`, not the claimed
record with `Payment = "Wire"`; the same happens when the HTTP response
itself is chat-shaped (`choices[0].text` is absent). -/
theorem claim_C4_counterexample :
    parseResponse chatEnvStr schema3 = none ∧
    analyzeEmail (Except.ok chatEnvJson) schema3 = none := by
  exact ⟨by rfl, by rfl⟩

/-- C4 amended: the completion-style envelope is unwrapped at the transport
call site (`choices[0].text` of the HTTP response) and its payload yields the
projected record; the pipeline itself performs no envelope detection on raw
text, so the chat-style envelope string yields `None` from it; chat-style
unwrapping exists only in the excel-layer parser, which returns the bare
parsed object without projecting the remaining schema fields. -/
theorem claim_C4_amended :
    analyzeEmail (Except.ok complEnvJson) schema3 =
      some [(str ("Price usd"), str ("")), (str ("Payment"), str ("Wire")),
            (str ("Comments"), str (""))] ∧
    parseResponse chatEnvStr schema3 = none ∧
    parseLmStudioResponse chatEnvStr =
      some (J.jobj [(str ("Payment"), J.jstr (str ("Wire")))]) := by
  exact ⟨by rfl, by rfl, by rfl⟩

/-- A repaired candidate is returned only when it parses. -/
theorem tryFixTruncated_parses :
    ∀ {x c : Str}, tryFixTruncated x = some c → (jloads c).isSome = true := by
  intro x c h
  dsimp only [tryFixTruncated] at h
  split at h
  · next hcond =>
      rw [← Option.some.inj h]
      exact hcond
  · exact absurd h (by simp)

/-- The kept repaired candidate is exactly the edited text. -/
theorem tryFixTruncated_eq :
    ∀ {x c : Str}, tryFixTruncated x = some c → c = fixCandidate x := by
  intro x c h
  dsimp only [tryFixTruncated] at h
  split at h
  · exact (Option.some.inj h).symm
  · exact absurd h (by simp)

/-- C5 counterexample: on `tNested` the code anchors repair at the last `{`
(index 25, a matched one) rather than the last unmatched `{` (index 0), and
extraction returns `None`, whereas the repair the claim describes — from the
last unmatched `{` — parses and yields the record with `Payment = "Wire"`. -/
theorem claim_C5_counterexample :
    rfindBrace tNested = some 25 ∧
    lastUnmatchedOpen tNested = some 0 ∧
    parseResponse tNested schema3 = none ∧
    specTruncRepairResult tNested schema3 =
      some [(str ("Price usd"), str ("")), (str ("Payment"), str ("Wire")),
            (str ("Comments"), str (""))] := by
  exact ⟨by decide, by decide, by rfl, by rfl⟩

/-- C5 amended: truncation repair runs only when the layer-1 scan extracted no
candidate at all (not merely none that parses); it then takes the stripped
text from the last `{` — matched or not — appends one quote on an odd total
quote count and one `}` when `{`s outnumber `}`s, and accepts only a candidate
that parses; the spec's concrete truncated example still yields
`Price usd = "100"`, `Payment = "Pay"`. -/
theorem claim_C5_amended :
    (∀ t : Str, naiveScanCands t ≠ [] → extractJsonObjects t = naiveScanCands t) ∧
    (∀ (t c : Str), naiveScanCands t = [] → c ∈ extractJsonObjects t →
      (jloads c).isSome = true ∧
        ∃ p, rfindBrace t = some p ∧
          tryFixTruncated (stripWsB (t.drop p)) = some c) ∧
    parseResponse tTrunc schema3 =
      some [(str ("Price usd"), str ("100")), (str ("Payment"), str ("Pay")),
            (str ("Comments"), str (""))] := by
  refine ⟨?_, ?_, by rfl⟩
  · intro t h
    unfold extractJsonObjects
    rw [if_neg h]
  · intro t c hnil hc
    unfold extractJsonObjects at hc
    rw [if_pos hnil] at hc
    cases hr : rfindBrace t with
    | none => rw [hr] at hc; simp at hc
    | some p =>
        rw [hr] at hc
        dsimp only at hc
        cases hf : tryFixTruncated (stripWsB (t.drop p)) with
        | none => rw [hf] at hc; simp at hc
        | some c' =>
            rw [hf] at hc
            have hcc : c = c' := by simpa using hc
            subst hcc
            exact ⟨tryFixTruncated_parses hf, p, rfl, hf⟩

/-- C5 witness: the repair branch of the no-candidate case applied to
`tNested` — its single extracted candidate parses and is the fix of the text
from the last `{`. -/
theorem claim_C5_witness :
    (jloads (str ("\x7b\"a\": \"b\"\x7d"))).isSome = true ∧
      ∃ p, rfindBrace tNested = some p ∧
        tryFixTruncated (stripWsB (tNested.drop p)) =
          some (str ("\x7b\"a\": \"b\"\x7d")) :=
  claim_C5_amended.2.1 tNested (str ("\x7b\"a\": \"b\"\x7d")) (by decide)
    (by decide)

/-- C6 counterexample: the layer-1 scan has no string state — the `}` inside
the quoted value of `tQuoteBrace` closes the depth count, so the emitted
candidate stops inside the string instead of at the object's real end, which
the string-aware scan the claim describes would produce. -/
theorem claim_C6_counterexample :
    naiveScanCands tQuoteBrace = [tQuoteBraceCut] ∧
    specStringAwareScan tQuoteBrace = [tQuoteBrace] ∧
    tQuoteBraceCut ≠ tQuoteBrace := by
  exact ⟨by decide, by decide, by decide⟩

/-- On quote-free text the string-aware scan and the code's naive scan agree
step by step. -/
theorem awareGo_eq_scanGo :
    ∀ (rest : Str) (i : Nat) (d : Int) (st : Option Nat)
      (acc : List (Nat × Nat)),
      (∀ c ∈ rest, c ≠ 34) →
        awareGo rest i d st false false acc = scanGo rest i d st acc := by
  intro rest
  induction rest with
  | nil => intro i d st acc _; rfl
  | cons c t ih =>
      intro i d st acc h
      have hc : c ≠ 34 := h c (by simp)
      have ht : ∀ x ∈ t, x ≠ 34 := fun x hx => h x (by simp [hx])
      by_cases h1 : c = 123
      · subst h1
        have e1 : awareGo (123 :: t) i d st false false acc =
            awareGo t (i + 1) (d + 1) (if d = 0 then some i else st) false
              false acc := rfl
        have e2 : scanGo (123 :: t) i d st acc =
            scanGo t (i + 1) (d + 1) (if d = 0 then some i else st) acc := rfl
        rw [e1, e2]
        exact ih _ _ _ _ ht
      · by_cases h2 : c = 125
        · subst h2
          cases st with
          | none =>
              have e1 : awareGo (125 :: t) i d none false false acc =
                  awareGo t (i + 1) (d - 1) none false false acc := rfl
              have e2 : scanGo (125 :: t) i d none acc =
                  scanGo t (i + 1) (d - 1) none acc := rfl
              rw [e1, e2]
              exact ih _ _ _ _ ht
          | some s0 =>
              have e1 : awareGo (125 :: t) i d (some s0) false false acc =
                  if d - 1 = 0 then
                    awareGo t (i + 1) (d - 1) none false false ((s0, i) :: acc)
                  else awareGo t (i + 1) (d - 1) (some s0) false false acc := rfl
              have e2 : scanGo (125 :: t) i d (some s0) acc =
                  if d - 1 = 0 then scanGo t (i + 1) (d - 1) none ((s0, i) :: acc)
                  else scanGo t (i + 1) (d - 1) (some s0) acc := rfl
              rw [e1, e2]
              by_cases h3 : d - 1 = 0
              · rw [if_pos h3, if_pos h3]
                exact ih _ _ _ _ ht
              · rw [if_neg h3, if_neg h3]
                exact ih _ _ _ _ ht
        · have e1 : awareGo (c :: t) i d st false false acc =
              awareGo t (i + 1) d st false false acc := by
            rw [awareGo.eq_def]
            simp [hc, h1, h2]
          have e2 : scanGo (c :: t) i d st acc = scanGo t (i + 1) d st acc := by
            rw [scanGo.eq_def]
            simp [h1, h2]
          rw [e1, e2]
          exact ih _ _ _ _ ht

/-- C6 amended: the layer-1 scan tracks only brace depth and ignores quoted
strings entirely — braces inside string values do move the depth count; on
text without quote characters it coincides with the string-aware scan the
claim describes, but on `tQuoteBrace` the two produce different candidates
(the string-aware toggling and escape handling exist only in the excel
layer's line-by-line parser, not in this scan). -/
theorem claim_C6_amended :
    (∀ t : Str, (∀ c ∈ t, c ≠ 34) →
      naiveScanCands t = specStringAwareScan t) ∧
    (naiveScanCands tQuoteBrace = [tQuoteBraceCut] ∧
      specStringAwareScan tQuoteBrace = [tQuoteBrace] ∧
      tQuoteBraceCut ≠ tQuoteBrace) := by
  refine ⟨?_, by decide, by decide, by decide⟩
  intro t h
  unfold naiveScanCands specStringAwareScan naiveScanPairs
  rw [awareGo_eq_scanGo t 0 0 none [] h]

/-- C6 witness: the two scans agree on a concrete quote-free text. -/
theorem claim_C6_witness :
    naiveScanCands (str ("x\x7by\x7dz")) =
      specStringAwareScan (str ("x\x7by\x7dz")) :=
  claim_C6_amended.1 (str ("x\x7by\x7dz")) (by decide)

/-- C8: the retry combinator genuinely retries raised failures (an operation
failing once then succeeding is retried to success), but `analyze_email`
catches every exception inside its own `try` block and returns `None`, so the
decorated call returns `Ok None` after a single attempt on a transport error —
the same observable outcome as parse exhaustion on a well-formed response. -/
theorem claim_C8_code_eval :
    retryGo (fun i => if i = 0 then Except.error () else Except.ok 7) 3 0 =
      Except.ok 7 ∧
    analyzeEmailDecorated failTransport schema3 = Except.ok none ∧
    analyzeEmailDecorated (fun _ => Except.ok noDataEnv) schema3 =
      Except.ok none := by
  exact ⟨by rfl, by rfl, by rfl⟩

/-!  ## The single-folder client (`src/imap_client.py`)

The IMAP server-side searches are modelled over the selected inbox message
list: `HEADER`/`FROM`/`SUBJECT` are case-insensitive substring predicates and
the result picked is the last matching message (`_fetch_first_email` takes
`ids[-1]`).  The `SINCE` key of strategy 5 is the raw `Date` header truncated
to 16 characters; the server's reading of that string is abstracted as the
`sinceParsed` field. -/

/-- A message of the selected inbox. -/
structure SMsg where
  inReplyTo : Str
  references : Str
  fromAddr : Str
  subject : Str
  body : Str
  date : Option Int
deriving DecidableEq

/-- The sent record consumed by the simple client's `find_reply`. -/
structure SentMail2 where
  messageId : Str
  references : Str
  toAddr : Str
  subject : Str
  normalizedSubject : Str
  sentDate : Str
  sinceParsed : Option Int
deriving DecidableEq

/-- The reply dictionary built by `_fetch_first_email`. -/
structure SReply where
  fromAddr : Str
  subject : Str
  body : Str
  date : Option Int
deriving DecidableEq

/-- Projection of a fetched message to the returned dictionary. -/
def projectReply (m : SMsg) : SReply :=
  { fromAddr := m.fromAddr, subject := m.subject, body := m.body,
    date := m.date }

/-- Case-insensitive substring, the model of IMAP text search keys. -/
def ciSub (needle hay : Str) : Bool := isSub (lowerS needle) (lowerS hay)

/-- The last message matching a search predicate (`ids[-1]`). -/
def lastMatch (p : SMsg → Bool) (inbox : List SMsg) : Option SMsg :=
  (inbox.filter p).getLast?

/-- `SINCE` comparison under the abstracted query-date reading. -/
def sinceOk (q : Option Int) (d : Option Int) : Bool :=
  match q, d with
  | some qq, some dd => decide (qq ≤ dd)
  | _, _ => false

/-- Strategy 1: `HEADER In-Reply-To "<msg_id>"`, guarded by a present id. -/
def strat1 (sent : SentMail2) (inbox : List SMsg) : Option SMsg :=
  if sent.messageId = [] then none
  else lastMatch (fun m => ciSub sent.messageId m.inReplyTo) inbox

/-- Strategy 2: `HEADER References "<last reference>"`, guarded by present
references. -/
def strat2 (sent : SentMail2) (inbox : List SMsg) : Option SMsg :=
  if sent.references = [] then none
  else
    lastMatch
      (fun m =>
        ciSub ((splitWs sent.references).getLast?.getD []) m.references)
      inbox

/-- The normalised sender address used by strategies 3–5. -/
def fromAddrOf (sent : SentMail2) : Str := lowerS (stripWsB sent.toAddr)

/-- Strategy 3: `FROM` and full `SUBJECT` — unguarded. -/
def strat3 (sent : SentMail2) (inbox : List SMsg) : Option SMsg :=
  lastMatch
    (fun m =>
      ciSub (fromAddrOf sent) m.fromAddr && ciSub sent.subject m.subject)
    inbox

/-- Strategy 4: `FROM` and the first six characters of the normalised
subject, fired only when that subject is longer than five characters. -/
def strat4 (sent : SentMail2) (inbox : List SMsg) : Option SMsg :=
  if 5 < sent.normalizedSubject.length then
    lastMatch
      (fun m =>
        ciSub (fromAddrOf sent) m.fromAddr &&
          ciSub (sent.normalizedSubject.take 6) m.subject)
      inbox
  else none

/-- Strategy 5: `FROM` and `SINCE`, fired only when a sent date exists. -/
def strat5 (sent : SentMail2) (inbox : List SMsg) : Option SMsg :=
  if sent.sentDate = [] then none
  else
    lastMatch
      (fun m =>
        ciSub (fromAddrOf sent) m.fromAddr && sinceOk sent.sinceParsed m.date)
      inbox

/-- Strategies 3–5, the reduced fallback pipeline. -/
def simpleFallback (sent : SentMail2) (inbox : List SMsg) : Option SMsg :=
  match strat3 sent inbox with
  | some r => some r
  | none =>
      match strat4 sent inbox with
      | some r => some r
      | none => strat5 sent inbox

/-- `find_reply` of the simple client: the five strategies in priority order,
each firing only when every earlier one produced nothing. -/
def simpleFindReply (sent : SentMail2) (inbox : List SMsg) : Option SReply :=
  (match strat1 sent inbox with
   | some r => some r
   | none =>
       match strat2 sent inbox with
       | some r => some r
       | none => simpleFallback sent inbox).map projectReply

/-- Sent record without a message id for the multi-folder engine. -/
def sentNoId : SentMail :=
  { toAddr := str ("bob@x.com"), subject := str ("hello"), date := some 100,
    messageId := str ("") }

/-- Store whose inbox holds a candidate the fallback heuristics would find. -/
def cStoreF : List Folder :=
  [{ raw := str ("INBOX"), decoded := str ("INBOX"), msgs := [m45] }]

/-- Simple-client sent record with a message id but no references. -/
def sentS : SentMail2 :=
  { messageId := str ("<id9>"), references := str (""),
    toAddr := str ("bob@x.com"), subject := str ("offer"),
    normalizedSubject := str ("offer"), sentDate := str (""),
    sinceParsed := none }

/-- Inbox message matching only the sender/subject fallback. -/
def msgS : SMsg :=
  { inReplyTo := str (""), references := str (""),
    fromAddr := str ("Bob <bob@x.com>"), subject := str ("Re: offer"),
    body := str ("yes"), date := some 5 }

/-- C7 counterexample: with an absent message id the multi-folder engine
returns `None` immediately even though its inbox holds an acceptable
candidate (correlation does not proceed); and in the simple client the
sender/subject fallback fires and returns a reply although the sent record's
message id is present (only its in-reply-to search came up empty). -/
theorem claim_C7_counterexample :
    sentNoId.messageId = [] ∧
    reserveFindReply sentNoId cStoreF 0 = none ∧
    acceptedPool (mkCtx sentNoId 0) [m45] ≠ [] ∧
    sentS.messageId ≠ [] ∧
    strat1 sentS [msgS] = none ∧
    simpleFindReply sentS [msgS] = some (projectReply msgS) := by
  refine ⟨by decide, by decide, by decide, by decide, by decide, by decide⟩

/-- C7 amended: in the multi-folder engine an absent message id aborts
correlation immediately (`None` regardless of the store) rather than merely
skipping the id-based strategies; in the simple client the reduced fallback
(strategies 3–5) fires whenever strategies 1 and 2 produced nothing — also
when the message id or references are present. -/
theorem claim_C7_amended :
    (∀ (sent : SentMail) (store : List Folder) (now : Int),
        sent.messageId = [] → reserveFindReply sent store now = none) ∧
    (∀ (sent : SentMail2) (inbox : List SMsg),
        strat1 sent inbox = none → strat2 sent inbox = none →
          simpleFindReply sent inbox =
            (simpleFallback sent inbox).map projectReply) := by
  constructor
  · intro sent store now h
    unfold reserveFindReply
    rw [if_pos h]
  · intro sent inbox h1 h2
    unfold simpleFindReply
    rw [h1, h2]

/-- C7 witness: the fallback equality applied to the concrete sent record
with a present message id. -/
theorem claim_C7_witness :
    simpleFindReply sentS [msgS] =
      (simpleFallback sentS [msgS]).map projectReply :=
  claim_C7_amended.2 sentS [msgS] (by decide) (by decide)

/-!  ## Subject normalisation (`src/utils.py` `normalize_subject`)  -/

/-- One match of the anchored prefix pattern
`^(RE(\[\d+\])?:|FWD?:|\[EXTERNAL\])` (case-insensitive), returning the rest
after the matched alternative.  After `re` the greedy optional bracket group
is tried first; when the next character is `[` and the group fails, the bare
colon alternative cannot match either, so the whole `re` alternative fails
(and no other alternative starts with `r`). -/
def matchNS (s : Str) : Option Str :=
  match matchCI (str ("re")) s with
  | some r =>
      (match r with
       | [] => none
       | c1 :: r2 =>
           if c1 = 91 then
             if r2.takeWhile isDigitC = [] then none
             else
               match r2.dropWhile isDigitC with
               | [] => none
               | d :: ds =>
                   if d = 93 then
                     match ds with
                     | [] => none
                     | e :: es => if e = 58 then some es else none
                   else none
           else if c1 = 58 then some r2
           else none)
  | none =>
      match matchCI (str ("fwd:")) s with
      | some r => some r
      | none =>
          match matchCI (str ("fw:")) s with
          | some r => some r
          | none =>
              match matchCI (str ("[external]")) s with
              | some r => some r
              | none => none

/-- One loop iteration of `normalize_subject`:
`re.sub(pattern + r'\s*', '', subject).strip()`. -/
def nsubStep (s : Str) : Str :=
  match matchNS s with
  | some rest => stripWsB (rest.dropWhile isWs)
  | none => stripWsB s

/-- The `while True` fixpoint loop, fuelled; `s.length + 1` fuel always
reaches the fixpoint because every productive step strictly shortens the
string. -/
def nsubLoopF : Nat → Str → Str
  | 0, s => s
  | fuel + 1, s => if nsubStep s = s then s else nsubLoopF fuel (nsubStep s)

/-- `normalize_subject`: empty in, empty out; otherwise strip markers to the
fixpoint and lowercase. -/
def normalizeSubject (s : Str) : Str :=
  if s = [] then [] else lowerS (nsubLoopF (s.length + 1) s)

/-!  Auxiliary facts for the normalisation proofs.  -/

theorem dropWhile_length_le (p : Nat → Bool) :
    ∀ l : Str, (l.dropWhile p).length ≤ l.length := by
  intro l
  induction l with
  | nil => simp
  | cons a t ih =>
      by_cases h : p a = true
      · rw [List.dropWhile_cons_of_pos h]
        exact le_trans ih (by simp)
      · rw [List.dropWhile_cons_of_neg h]

theorem dropWhile_eq_or_lt (p : Nat → Bool) (l : Str) :
    l.dropWhile p = l ∨ (l.dropWhile p).length < l.length := by
  cases l with
  | nil => exact Or.inl rfl
  | cons a t =>
      by_cases h : p a = true
      · right
        rw [List.dropWhile_cons_of_pos h]
        exact lt_of_le_of_lt (dropWhile_length_le p t) (by simp)
      · left
        rw [List.dropWhile_cons_of_neg h]

theorem rstripWs_eq_or_lt (l : Str) :
    rstripWs l = l ∨ (rstripWs l).length < l.length := by
  unfold rstripWs
  rcases dropWhile_eq_or_lt isWs l.reverse with h | h
  · left; rw [h, List.reverse_reverse]
  · right; simpa using h

theorem rstripWs_length_le (l : Str) : (rstripWs l).length ≤ l.length := by
  unfold rstripWs
  simpa using dropWhile_length_le isWs l.reverse

theorem stripWsB_length_le (l : Str) : (stripWsB l).length ≤ l.length := by
  unfold stripWsB
  exact le_trans (rstripWs_length_le _) (dropWhile_length_le isWs l)

theorem stripWsB_eq_or_lt (l : Str) :
    stripWsB l = l ∨ (stripWsB l).length < l.length := by
  unfold stripWsB
  rcases dropWhile_eq_or_lt isWs l with h | h
  · rw [h]
    rcases rstripWs_eq_or_lt l with h2 | h2
    · left; exact h2
    · right; exact h2
  · right
    exact lt_of_le_of_lt (rstripWs_length_le _) h

theorem matchCI_length {w s r : Str} (h : matchCI w s = some r) :
    s.length = w.length + r.length := by
  induction w generalizing s with
  | nil => simp [matchCI] at h; simp [h]
  | cons p ps ih =>
      cases s with
      | nil => simp [matchCI] at h
      | cons c cs =>
          unfold matchCI at h
          by_cases hc : lowChar c = lowChar p
          · rw [if_pos hc] at h
            have := ih h
            simp [this]
            omega
          · rw [if_neg hc] at h
            simp at h

theorem matchNS_shorter {s r : Str} (h : matchNS s = some r) :
    r.length < s.length := by
  unfold matchNS at h
  cases hre : matchCI (str ("re")) s with
  | some r1 =>
      rw [hre] at h
      have hl1 : s.length = 2 + r1.length := matchCI_length hre
      cases r1 with
      | nil => simp at h
      | cons c1 cs1 =>
          simp only at h
          by_cases h91 : c1 = 91
          · rw [if_pos h91] at h
            by_cases hds : cs1.takeWhile isDigitC = []
            · rw [if_pos hds] at h
              simp at h
            · rw [if_neg hds] at h
              cases hr3 : cs1.dropWhile isDigitC with
              | nil => rw [hr3] at h; simp at h
              | cons d ds =>
                  rw [hr3] at h
                  dsimp only at h
                  have hdw : ds.length + 1 ≤ cs1.length := by
                    have := dropWhile_length_le isDigitC cs1
                    rw [hr3] at this
                    simpa using this
                  by_cases h93 : d = 93
                  · rw [if_pos h93] at h
                    cases ds with
                    | nil => simp at h
                    | cons e es =>
                        dsimp only at h
                        by_cases h58 : e = 58
                        · rw [if_pos h58] at h
                          have hr : es = r := by simpa using h
                          rw [← hr]
                          simp at hdw
                          simp [hl1]
                          omega
                        · rw [if_neg h58] at h; simp at h
                  · rw [if_neg h93] at h; simp at h
          · rw [if_neg h91] at h
            by_cases h58 : c1 = 58
            · rw [if_pos h58] at h
              have hr : cs1 = r := by simpa using h
              rw [← hr]
              simp [hl1]
              omega
            · rw [if_neg h58] at h; simp at h
  | none =>
      rw [hre] at h
      cases hf1 : matchCI (str ("fwd:")) s with
      | some r1 =>
          rw [hf1] at h
          have := matchCI_length hf1
          have hr : r1 = r := by simpa using h
          rw [← hr]
          simp [str] at this
          omega
      | none =>
          rw [hf1] at h
          cases hf2 : matchCI (str ("fw:")) s with
          | some r1 =>
              rw [hf2] at h
              have := matchCI_length hf2
              have hr : r1 = r := by simpa using h
              rw [← hr]
              simp [str] at this
              omega
          | none =>
              rw [hf2] at h
              cases hf3 : matchCI (str ("[external]")) s with
              | some r1 =>
                  rw [hf3] at h
                  have := matchCI_length hf3
                  have hr : r1 = r := by simpa using h
                  rw [← hr]
                  simp [str] at this
                  omega
              | none => rw [hf3] at h; simp at h

theorem nsubStep_cases (s : Str) :
    nsubStep s = s ∨ (nsubStep s).length < s.length := by
  unfold nsubStep
  cases hm : matchNS s with
  | some r =>
      right
      have h1 : r.length < s.length := matchNS_shorter hm
      calc (stripWsB (r.dropWhile isWs)).length
          ≤ (r.dropWhile isWs).length := stripWsB_length_le _
        _ ≤ r.length := dropWhile_length_le _ _
        _ < s.length := h1
  | none => exact stripWsB_eq_or_lt s

theorem nsubStep_fix_char {s : Str} (h : nsubStep s = s) :
    matchNS s = none ∧ stripWsB s = s := by
  cases hm : matchNS s with
  | some r =>
      exfalso
      have hlt : (nsubStep s).length < s.length := by
        unfold nsubStep
        rw [hm]
        calc (stripWsB (r.dropWhile isWs)).length
            ≤ (r.dropWhile isWs).length := stripWsB_length_le _
          _ ≤ r.length := dropWhile_length_le _ _
          _ < s.length := matchNS_shorter hm
      rw [h] at hlt
      omega
  | none =>
      refine ⟨rfl, ?_⟩
      unfold nsubStep at h
      rw [hm] at h
      exact h

theorem nsubLoopF_fix :
    ∀ (fuel : Nat) (s : Str), s.length < fuel →
      nsubStep (nsubLoopF fuel s) = nsubLoopF fuel s := by
  intro fuel
  induction fuel with
  | zero => intro s h; omega
  | succ n ih =>
      intro s h
      unfold nsubLoopF
      by_cases hs : nsubStep s = s
      · rw [if_pos hs]
        exact hs
      · rw [if_neg hs]
        apply ih
        rcases nsubStep_cases s with h1 | h1
        · exact absurd h1 hs
        · omega

theorem nsubLoopF_of_fix {s : Str} (h : nsubStep s = s) :
    ∀ fuel, nsubLoopF fuel s = s := by
  intro fuel
  cases fuel with
  | zero => rfl
  | succ n => unfold nsubLoopF; rw [if_pos h]

theorem lowChar_idem (n : Nat) : lowChar (lowChar n) = lowChar n := by
  unfold lowChar
  split_ifs <;> omega

theorem isWs_ff_of_ge {n : Nat} (h : 33 ≤ n) : isWs n = false := by
  unfold isWs
  simp
  omega

theorem isWs_lowChar (n : Nat) : isWs (lowChar n) = isWs n := by
  unfold lowChar
  split_ifs with h1 h2 h3
  · rw [isWs_ff_of_ge (by omega), isWs_ff_of_ge (by omega)]
  · rw [isWs_ff_of_ge (by omega), isWs_ff_of_ge (by omega)]
  · rw [h3, isWs_ff_of_ge (by omega), isWs_ff_of_ge (by omega)]
  · rfl

theorem isDigitC_ff_of_ge {n : Nat} (h : 58 ≤ n) : isDigitC n = false := by
  unfold isDigitC
  simp
  omega

theorem isDigitC_lowChar (n : Nat) : isDigitC (lowChar n) = isDigitC n := by
  unfold lowChar
  split_ifs with h1 h2 h3
  · rw [isDigitC_ff_of_ge (by omega), isDigitC_ff_of_ge (by omega)]
  · rw [isDigitC_ff_of_ge (by omega), isDigitC_ff_of_ge (by omega)]
  · rw [h3, isDigitC_ff_of_ge (by omega), isDigitC_ff_of_ge (by omega)]
  · rfl

theorem lowChar_eq_91 (n : Nat) : lowChar n = 91 ↔ n = 91 := by
  unfold lowChar
  split_ifs <;> omega

theorem lowChar_eq_58 (n : Nat) : lowChar n = 58 ↔ n = 58 := by
  unfold lowChar
  split_ifs <;> omega

theorem lowChar_eq_93 (n : Nat) : lowChar n = 93 ↔ n = 93 := by
  unfold lowChar
  split_ifs <;> omega

theorem matchCI_lower : ∀ (w s : Str),
    matchCI w (lowerS s) = (matchCI w s).map lowerS := by
  intro w
  induction w with
  | nil => intro s; simp [matchCI]
  | cons p ps ih =>
      intro s
      cases s with
      | nil => rfl
      | cons c cs =>
          show matchCI (p :: ps) (lowChar c :: lowerS cs) = _
          unfold matchCI
          rw [lowChar_idem]
          by_cases hc : lowChar c = lowChar p
          · rw [if_pos hc, if_pos hc, ih]
          · rw [if_neg hc, if_neg hc]
            rfl

theorem lowerS_eq_nil {u : Str} : lowerS u = [] ↔ u = [] := by
  cases u <;> simp [lowerS]

theorem takeWhileDigit_lower (u : Str) :
    (lowerS u).takeWhile isDigitC = lowerS (u.takeWhile isDigitC) := by
  unfold lowerS
  rw [List.takeWhile_map]
  have h : (isDigitC ∘ lowChar) = isDigitC := funext isDigitC_lowChar
  rw [h]

theorem dropWhileDigit_lower (u : Str) :
    (lowerS u).dropWhile isDigitC = lowerS (u.dropWhile isDigitC) := by
  unfold lowerS
  rw [List.dropWhile_map]
  have h : (isDigitC ∘ lowChar) = isDigitC := funext isDigitC_lowChar
  rw [h]

theorem dropWhileWs_lower (u : Str) :
    (lowerS u).dropWhile isWs = lowerS (u.dropWhile isWs) := by
  unfold lowerS
  rw [List.dropWhile_map]
  have h : (isWs ∘ lowChar) = isWs := funext isWs_lowChar
  rw [h]

theorem rstripWs_lower (u : Str) : rstripWs (lowerS u) = lowerS (rstripWs u) := by
  unfold rstripWs lowerS
  rw [← List.map_reverse, List.dropWhile_map, ← List.map_reverse]
  have h : (isWs ∘ lowChar) = isWs := funext isWs_lowChar
  rw [h]

theorem stripWsB_lower (u : Str) : stripWsB (lowerS u) = lowerS (stripWsB u) := by
  unfold stripWsB
  rw [dropWhileWs_lower, rstripWs_lower]

theorem lowerS_idem (u : Str) : lowerS (lowerS u) = lowerS u := by
  unfold lowerS
  rw [List.map_map]
  have h : (lowChar ∘ lowChar) = lowChar := funext lowChar_idem
  rw [h]

theorem matchNS_lower (s : Str) :
    matchNS (lowerS s) = (matchNS s).map lowerS := by
  unfold matchNS
  rw [matchCI_lower]
  cases hre : matchCI (str ("re")) s with
  | none =>
      simp only [Option.map_none]
      rw [matchCI_lower]
      cases hf1 : matchCI (str ("fwd:")) s with
      | some r1 => rfl
      | none =>
          simp only [Option.map_none]
          rw [matchCI_lower]
          cases hf2 : matchCI (str ("fw:")) s with
          | some r1 => rfl
          | none =>
              simp only [Option.map_none]
              rw [matchCI_lower]
              cases hf3 : matchCI (str ("[external]")) s <;> rfl
  | some r =>
      simp only [Option.map_some]
      cases r with
      | nil => rfl
      | cons c1 r2 =>
          show (match lowChar c1 :: lowerS r2 with
            | [] => none
            | c1 :: r2 =>
                if c1 = 91 then
                  if r2.takeWhile isDigitC = [] then none
                  else
                    match r2.dropWhile isDigitC with
                    | [] => none
                    | d :: ds =>
                        if d = 93 then
                          match ds with
                          | [] => none
                          | e :: es => if e = 58 then some es else none
                        else none
                else if c1 = 58 then some r2
                else none) = _
          dsimp only
          by_cases h91 : c1 = 91
          · rw [if_pos ((lowChar_eq_91 c1).mpr h91), if_pos h91]
            rw [takeWhileDigit_lower, dropWhileDigit_lower]
            by_cases hds : r2.takeWhile isDigitC = []
            · rw [hds]
              simp [lowerS]
            · rw [if_neg (by simpa [lowerS_eq_nil] using hds),
                if_neg hds]
              cases hdrop : r2.dropWhile isDigitC with
              | nil => simp [hdrop, lowerS]
              | cons d ds =>
                  show (match lowChar d :: lowerS ds with
                    | [] => none
                    | d :: ds =>
                        if d = 93 then
                          match ds with
                          | [] => none
                          | e :: es => if e = 58 then some es else none
                        else none) = _
                  dsimp only
                  by_cases h93 : d = 93
                  · rw [if_pos ((lowChar_eq_93 d).mpr h93), if_pos h93]
                    cases ds with
                    | nil => rfl
                    | cons e es =>
                        show (match lowChar e :: lowerS es with
                          | [] => none
                          | e :: es => if e = 58 then some es else none) = _
                        dsimp only
                        by_cases h58 : e = 58
                        · rw [if_pos ((lowChar_eq_58 e).mpr h58), if_pos h58]
                          rfl
                        · rw [if_neg (fun hx => h58 ((lowChar_eq_58 e).mp hx)),
                            if_neg h58]
                          rfl
                  · rw [if_neg (fun hx => h93 ((lowChar_eq_93 d).mp hx)),
                      if_neg h93]
                    rfl
          · rw [if_neg (fun hx => h91 ((lowChar_eq_91 c1).mp hx)),
              if_neg h91]
            by_cases h58 : c1 = 58
            · rw [if_pos ((lowChar_eq_58 c1).mpr h58), if_pos h58]
              rfl
            · rw [if_neg (fun hx => h58 ((lowChar_eq_58 c1).mp hx)),
                if_neg h58]
              rfl

/-- C10: subject normalisation is idempotent, and its output never starts
with one of the stripped markers — the loop reaches a fixpoint with no
pattern match and no surrounding whitespace, and lowercasing (under which the
case-insensitive pattern and the whitespace/digit classes are invariant)
cannot re-introduce a match. -/
theorem claim_C10 :
    ∀ s : Str, normalizeSubject (normalizeSubject s) = normalizeSubject s ∧
      matchNS (normalizeSubject s) = none := by
  intro s
  by_cases hs : s = []
  · subst hs
    exact ⟨rfl, by decide⟩
  · have hfix : nsubStep (nsubLoopF (s.length + 1) s) =
        nsubLoopF (s.length + 1) s :=
      nsubLoopF_fix (s.length + 1) s (by omega)
    obtain ⟨hmn, hsb⟩ := nsubStep_fix_char hfix
    have hval : normalizeSubject s = lowerS (nsubLoopF (s.length + 1) s) := by
      unfold normalizeSubject
      rw [if_neg hs]
    have hmt : matchNS (lowerS (nsubLoopF (s.length + 1) s)) = none := by
      rw [matchNS_lower, hmn]
      rfl
    refine ⟨?_, by rw [hval]; exact hmt⟩
    by_cases ht : lowerS (nsubLoopF (s.length + 1) s) = []
    · rw [hval, ht]
      rfl
    · rw [hval]
      unfold normalizeSubject
      rw [if_neg ht]
      have hstep : nsubStep (lowerS (nsubLoopF (s.length + 1) s)) =
          lowerS (nsubLoopF (s.length + 1) s) := by
        unfold nsubStep
        rw [hmt, stripWsB_lower, hsb]
      rw [nsubLoopF_of_fix hstep]
      exact lowerS_idem _
